import Mathlib

/-!
# The route trie of `web/homework1/route.go`

A shallow embedding of the router of package `web`: path validation
(`checkPath`), segmentation (`pathSegment`), registration (`addRoute`,
`initRoot`, `childOrCreate`) and the lookup entry points (`findRoute`, `childOf`).

Conventions of the embedding

* A Go `string` is the list of its code points (`GoString`); `len` is the length
  of its UTF-8 encoding, as in Go.
* A Go `map[string]V` is an association list read by first match (`mapGet`) and
  written in place (`mapSet`); the `nil` map of a `node` is `none`.
* A `*node` held by a map is the node itself: every node is reachable through
  exactly one map entry, so a write through the pointer is a write-back into the
  parent (`node.storeChild`).
* A `panic` is an outcome: `Outcome.panic` holds the panic value and
  `Outcome.state` the memory at the moment of the panic.
-/

namespace Web

/-! ## Strings -/

/-- A Go string, as the list of its code points. -/
abbrev GoString := List Char

/-- Go's builtin `len` on a string: the number of bytes of its UTF-8 encoding. -/
def len (s : GoString) : Nat := (s.map Char.utf8Size).sum

/-- Go's `strings.HasPrefix`. -/
def HasPrefix (s pre : GoString) : Bool := pre.isPrefixOf s

/-- Go's `strings.HasSuffix`. -/
def HasSuffix (s suf : GoString) : Bool := suf.isSuffixOf s

/-- Go's `strings.Contains`. -/
def Contains : GoString → GoString → Bool
  | [], sub => sub.isEmpty
  | c :: cs, sub => sub.isPrefixOf (c :: cs) || Contains cs sub

/-- Go's `strings.Split(s, sep)` for a separator `sep` of one character: the pieces
of `s` between the occurrences of `sep`, empty pieces included. -/
def Split : GoString → Char → List GoString
  | [], _ => [[]]
  | c :: cs, sep =>
    if c = sep then [] :: Split cs sep
    else
      match Split cs sep with
      | [] => [[c]]
      | piece :: pieces => (c :: piece) :: pieces

/-- Go's `unicode.IsSpace`: the code points with the Unicode White_Space property. -/
def IsSpace (c : Char) : Bool :=
  let v := c.toNat
  (9 ≤ v && v ≤ 13) || v = 32 || v = 133 || v = 160 || v = 5760
    || (8192 ≤ v && v ≤ 8202) || v = 8232 || v = 8233 || v = 8239 || v = 8287 || v = 12288

/-- Go's `strings.TrimSpace`: the string without its leading and trailing white space. -/
def TrimSpace (s : GoString) : GoString :=
  ((s.dropWhile IsSpace).reverse.dropWhile IsSpace).reverse

/-! ## Maps -/

/-- The read `m[k]` of a Go map: the value bound to `k`, if any. -/
def mapGet {V : Type} : List (GoString × V) → GoString → Option V
  | [], _ => none
  | (k', v) :: rest, k => if k' = k then some v else mapGet rest k

/-- The write `m[k] = v` of a Go map: rebinds `k` where it is bound, binds it otherwise. -/
def mapSet {V : Type} : List (GoString × V) → GoString → V → List (GoString × V)
  | [], k, v => [(k, v)]
  | (k', v') :: rest, k, v => if k' = k then (k, v) :: rest else (k', v') :: mapSet rest k v

/-! ## Nodes -/

/-- Modelled from the spec: the declaration of `HandleFunc` is not among the sources.
The router only stores a handler and tests it against `nil`, so a handler is `none`
(the `nil` function value) or `some i`, the function value of identity `i`. -/
abbrev HandleFunc := Option Nat

/-- The struct `node`. The fields `starChild`, `paramChild` and `regChild` are pointers
(`none` is `nil`), `children` is a map (`none` is the `nil` map) and `regExpr` a
pointer to a compiled expression, kept as its source text. -/
inductive node where
  | mk (typ : Int) (path : GoString) (children : Option (List (GoString × node)))
      (handler : HandleFunc) (starChild : Option node) (paramChild : Option node)
      (paramName : GoString) (regChild : Option node) (regExpr : Option GoString)

namespace node

/-- Field `typ`. -/
def typ : node → Int
  | mk t _ _ _ _ _ _ _ _ => t

/-- Field `path`. -/
def path : node → GoString
  | mk _ p _ _ _ _ _ _ _ => p

/-- Field `children`. -/
def children : node → Option (List (GoString × node))
  | mk _ _ c _ _ _ _ _ _ => c

/-- Field `handler`. -/
def handler : node → HandleFunc
  | mk _ _ _ h _ _ _ _ _ => h

/-- Field `starChild`. -/
def starChild : node → Option node
  | mk _ _ _ _ s _ _ _ _ => s

/-- Field `paramChild`. -/
def paramChild : node → Option node
  | mk _ _ _ _ _ p _ _ _ => p

/-- Field `paramName`. -/
def paramName : node → GoString
  | mk _ _ _ _ _ _ n _ _ => n

/-- Field `regChild`. -/
def regChild : node → Option node
  | mk _ _ _ _ _ _ _ r _ => r

/-- Field `regExpr`. -/
def regExpr : node → Option GoString
  | mk _ _ _ _ _ _ _ _ e => e

/-- The assignment `n.children = c`. -/
def setChildren : node → Option (List (GoString × node)) → node
  | mk t p _ h s pc pn r e, c => mk t p c h s pc pn r e

/-- The assignment `n.handler = h`. -/
def setHandler : node → HandleFunc → node
  | mk t p c _ s pc pn r e, h => mk t p c h s pc pn r e

/-- The read `n.children[path]`; reading the `nil` map finds nothing. -/
def childrenGet (n : node) (path : GoString) : Option node :=
  match n.children with
  | none => none
  | some m => mapGet m path

/-- The effect on `n` of a write through the pointer `n.children[path]`: the node held
under `path` becomes `c`. -/
def storeChild (n : node) (path : GoString) (c : node) : node :=
  n.setChildren (some (mapSet (n.children.getD []) path c))

/-- The node literal of `childOrCreate` (lines 172-182). -/
def newChild (path : GoString) : node :=
  mk 0 path none none none none [] none none

/-- The node that `childOrCreate` returns: the child held under `seg`, or a new one. -/
def childFor (n : node) (seg : GoString) : node :=
  (n.childrenGet seg).getD (newChild seg)

/-- `childOrCreate` (lines 163-184): the receiver after the call and the node returned. -/
def childOrCreate (n : node) (path : GoString) : node × node :=
  match n.childrenGet path with
  | some c => (n, c)
  | none =>
    let n1 :=
      match n.children with
      | none => n.setChildren (some [])
      | some _ => n
    (n1.storeChild path (newChild path), newChild path)

/-- The loop and the handler assignment of `addRoute` (lines 70-77), started at
`currNode`: the node `currNode` after them, and whether the route conflict panic of
line 75 was raised. -/
def addRouteFrom (currNode : node) (segs : List GoString) (handler : HandleFunc) :
    node × Bool :=
  match segs with
  | [] =>
    if currNode.handler ≠ none then (currNode, true)
    else (currNode.setHandler handler, false)
  | seg :: rest =>
    let created := currNode.childOrCreate seg
    let below := addRouteFrom created.2 rest handler
    (created.1.storeChild seg below.1, below.2)

/-- The node reached from `n` through the `children` maps along the keys `segs`. -/
def descend (n : node) : List GoString → Option node
  | [] => some n
  | seg :: rest =>
    match n.childrenGet seg with
    | none => none
    | some c => descend c rest

/-- The handler of the node reached from `n` along `segs`; `none` when there is no
such node or its handler is `nil`. -/
def handlerAt (n : node) (segs : List GoString) : HandleFunc :=
  (n.descend segs).bind handler

/-- The keys of the `children` map of `n`, as the map holds them. -/
def keys (n : node) : List GoString :=
  (n.children.getD []).map Prod.fst

/-- A node as registration builds it: no key of `children` is held twice, and
`starChild`, `paramChild` and `regChild` are `nil`. -/
def Plain (n : node) : Prop :=
  n.keys.Nodup ∧ n.starChild = none ∧ n.paramChild = none ∧ n.regChild = none

end node

/-- `newRootNode` (lines 137-149). -/
def newRootNode : node :=
  node.mk 0 ['/'] none none none none [] none none

/-! ## The router -/

/-- The struct `router`; `trees` is never the `nil` map (`newRouter` makes it). -/
structure router where
  trees : List (GoString × node)

/-- `newRouter` (lines 14-18). -/
def newRouter : router := ⟨[]⟩

/-- The result of a call that may panic: the memory it leaves and the panic value. -/
structure Outcome (σ : Type) where
  state : σ
  panic : Option GoString

/-- `checkPath` (lines 21-39): the panic value, `none` when the call returns. -/
def checkPath (path : GoString) : Option GoString :=
  if len path = 0 then
    some "web: 路由是空字符串".toList
  else if !HasPrefix path "/".toList then
    some "web: 路由必须以 / 开头".toList
  else if HasSuffix path "/".toList && len path != 1 then
    some "web: 路由不能以 / 结尾".toList
  else if HasPrefix path "//".toList then
    some ("web: 非法路由。不允许使用 //a/b, /a//b 之类的路由, [".toList ++ path ++ "]".toList)
  else if Contains path "//".toList then
    some ("web: 非法路由。不允许使用 //a/b, /a//b 之类的路由, [".toList ++ path ++ "]".toList)
  else
    none

/-- `pathSegment` (lines 45-55). -/
def pathSegment (path : GoString) : List GoString :=
  (Split path '/').foldl
    (fun result seg => if len (TrimSpace seg) = 0 then result else result ++ [seg])
    [['/']]

/-- The panic value of line 75. -/
def routeConflict (path : GoString) : GoString :=
  "web: 路由冲突[".toList ++ path ++ "]".toList

namespace router

/-- The root that `addRoute` starts from: the tree of the method, or a new root. -/
def rootFor (r : router) (method : GoString) : node :=
  (mapGet r.trees method).getD newRootNode

/-- `initRoot` (lines 80-85). -/
def initRoot (r : router) (method : GoString) : router :=
  match mapGet r.trees method with
  | none => ⟨mapSet r.trees method newRootNode⟩
  | some _ => r

/-- `addRoute` (lines 64-78). -/
def addRoute (r : router) (method path : GoString) (handler : HandleFunc) :
    Outcome router :=
  match checkPath path with
  | some msg => ⟨r, some msg⟩
  | none =>
    let r1 := r.initRoot method
    match mapGet r1.trees method with
    | none => ⟨r1, some "invalid memory address or nil pointer dereference".toList⟩
    | some currNode =>
      let segs := pathSegment path
      let walked := currNode.addRouteFrom segs.tail handler
      ⟨⟨mapSet r1.trees method walked.1⟩,
        if walked.2 then some (routeConflict path) else none⟩

/-- The node of the tree of `method` reached along `segs`. -/
def nodeAt (r : router) (method : GoString) (segs : List GoString) : Option node :=
  (mapGet r.trees method).bind (fun root => root.descend segs)

/-- The handler of the node of the tree of `method` reached along `segs`; `none` when
there is no such node or its handler is `nil`. -/
def handlerAt (r : router) (method : GoString) (segs : List GoString) : HandleFunc :=
  (r.nodeAt method segs).bind node.handler

end router

/-- The struct `matchInfo`. -/
structure matchInfo where
  n : Option node
  pathParams : Option (List (GoString × GoString))

/-- `addValue` (lines 191-197): a `nil` map is first made with the binding, then the
binding is written. -/
def matchInfo.addValue (m : matchInfo) (key value : GoString) : matchInfo :=
  let m1 : matchInfo :=
    match m.pathParams with
    | none => ⟨m.n, some [(key, value)]⟩
    | some _ => m
  ⟨m1.n, some (mapSet (m1.pathParams.getD []) key value)⟩

/-- The read `m.pathParams[key]`; reading the `nil` map finds nothing. -/
def matchInfo.param (m : matchInfo) (key : GoString) : Option GoString :=
  match m.pathParams with
  | none => none
  | some params => mapGet params key

/-- `findRoute` (lines 89-91): the body is the single statement `panic("implement me")`. -/
def router.findRoute (_r : router) (_method _path : GoString) :
    Except GoString (matchInfo × Bool) :=
  Except.error "implement me".toList

/-- `childOf` (lines 154-156): the body is the single statement `panic("implement me")`. -/
def node.childOf (_n : node) (_path : GoString) : Except GoString (node × Bool) :=
  Except.error "implement me".toList

/-! ## Registering a list of routes -/

/-- One registration: the arguments of a call of `addRoute`. -/
structure Route where
  method : GoString
  path : GoString
  handler : HandleFunc

/-- The registration loop of the tests (`router_test.go`, lines 56-58): `addRoute` for
each route in turn; a panic ends the loop. -/
def registerAll (r : router) : List Route → Outcome router
  | [] => ⟨r, none⟩
  | x :: rest =>
    match (r.addRoute x.method x.path x.handler).panic with
    | some msg => ⟨(r.addRoute x.method x.path x.handler).state, some msg⟩
    | none => registerAll (r.addRoute x.method x.path x.handler).state rest

/-- The routes that `TestRouter_addRoute` registers (`router_test.go`, lines 14-52), all
with the one handler of the test. -/
def testRoutes : List Route :=
  [⟨"GET".toList, "/".toList, some 1⟩, ⟨"GET".toList, "/user".toList, some 1⟩,
    ⟨"GET".toList, "/user/home".toList, some 1⟩, ⟨"GET".toList, "/order/detail".toList, some 1⟩,
    ⟨"POST".toList, "/order/create".toList, some 1⟩, ⟨"POST".toList, "/login".toList, some 1⟩]

/-! ## The words of the specification -/

/-- A valid pattern in the words of the specification: non-empty, begins with `/`, does
not end with `/` unless it is exactly `/`, and has no doubled `/`. -/
def ValidPattern (p : GoString) : Prop :=
  p ≠ [] ∧ p.head? = some '/' ∧ (p.getLast? = some '/' → p = ['/']) ∧ ¬ ['/', '/'] <:+: p

/-- Two registrations conflict, in the words of the specification, when the second
reaches the node of the first: they have the same method and the same segments. -/
def Route.conflicts (a b : Route) : Prop :=
  a.method = b.method ∧ pathSegment a.path = pathSegment b.path

instance (a b : Route) : Decidable (a.conflicts b) := by
  unfold Route.conflicts
  infer_instance

/-- The router `r` holds exactly the routes `regs`: its nodes are the prefixes of their
segments and its handlers sit on their last nodes. -/
def Holds (regs : List Route) (r : router) : Prop :=
  (∀ m ks, (r.nodeAt m ks).isSome = true ↔
      ∃ x ∈ regs, x.method = m ∧ ks <+: (pathSegment x.path).tail) ∧
    (∀ m ks, r.handlerAt m ks ≠ none ↔
      ∃ x ∈ regs, x.method = m ∧ (pathSegment x.path).tail = ks)

/-- The segments in the words of the specification: the root marker followed by the
non-empty pieces of the path split on `/`. -/
def nonEmptySegments (path : GoString) : List GoString :=
  ['/'] :: (Split path '/').filter (fun piece => !piece.isEmpty)

/-- The states of a router reachable from `newRouter()` by calls of `addRoute` that
return. -/
inductive Reachable : router → Prop where
  | fresh : Reachable newRouter
  | added (r : router) (method path : GoString) (handler : HandleFunc) :
      Reachable r → (r.addRoute method path handler).panic = none →
      Reachable (r.addRoute method path handler).state

/-- Go's `strings.Join(pieces, sep)` for a separator of one character. -/
def Join : List GoString → Char → GoString
  | [], _ => []
  | [piece], _ => piece
  | piece :: next :: rest, sep => piece ++ [sep] ++ Join (next :: rest) sep

/-- No piece of the path between two `/` consists of white space only. -/
def NoBlankPiece (path : GoString) : Prop :=
  ∀ piece ∈ Split path '/', piece.all IsSpace = true → piece = []

instance (path : GoString) : Decidable (NoBlankPiece path) := by
  unfold NoBlankPiece
  infer_instance

/-- Two routers are structurally equal: they have a node at the same lists of keys of
the same methods, with the same `path` and the same handler. -/
def router.sameStructure (a b : router) : Prop :=
  ∀ m ks, (a.nodeAt m ks).map (fun n => (n.path, n.handler)) =
    (b.nodeAt m ks).map (fun n => (n.path, n.handler))

instance (p : GoString) : Decidable (ValidPattern p) := by
  unfold ValidPattern
  infer_instance

end Web

/-!
# The insert builder of `orm/insert.go`

`Inserter.Build` and the `builder` of `orm/builder.go`. The packages `errs` and `model`,
the types `DB`, `Dialect` and `Query`, the registry and the value accessor are not among
the sources: their declarations are taken from the way `Build` uses them, and what they
compute is a parameter (a field of `DB` or of `Dialect`).
-/

namespace Orm

open Web

/-- A Go value of type `any`, as the arguments of the tests have them. -/
inductive GoAny where
  | int (v : Int)
  | str (s : GoString)
  | nullString (s : GoString) (valid : Bool)
  deriving DecidableEq

/-- The errors that `Build` returns: the two of package `errs` that it names, and the
errors of its collaborators (the registry, the value accessor, the dialect). -/
inductive Error where
  | ErrInsertZeroRow
  | ErrUnknownField (name : GoString)
  | collaborator (code : Nat)
  deriving DecidableEq

deriving instance DecidableEq for Except

/-- The struct `model.Field`, with the two fields that `Build` reads. -/
structure Field where
  ColName : GoString
  GoName : GoString
  deriving DecidableEq

/-- The struct `model.Model`, with the three fields that `Build` reads. -/
structure Model where
  TableName : GoString
  Fields : List Field
  FieldMap : List (GoString × Field)
  deriving DecidableEq

/-- The struct `Column` of `orm/column.go`. -/
structure Column where
  name : GoString
  alias' : GoString
  deriving DecidableEq

/-- The interface `Assignable`: a `Column`, or an assignment of a value to a column (the
result of `Assign` in the tests). -/
inductive Assignable where
  | column (c : Column)
  | assignment (column : GoString) (val : GoAny)
  deriving DecidableEq

/-- The struct `Upsert`. -/
structure Upsert where
  assigns : List Assignable
  conflictColumns : List GoString
  deriving DecidableEq

/-- The struct `Query`; `Args` is a slice (`none` is `nil`). -/
structure Query where
  SQL : GoString
  Args : Option (List GoAny)
  deriving DecidableEq

/-- The struct `builder`; `sb` is the text written so far, `args` a slice (`none` is `nil`)
and `model` a pointer (`none` is `nil`). Its field `dialect` is kept beside it, in
`Inserter.dialect`. -/
structure builder where
  sb : GoString
  args : Option (List GoAny)
  model : Option Model
  quoter : Char

namespace builder

/-- Go's `sb.WriteString(s)` on the `strings.Builder` of `b`. -/
def WriteString (b : builder) (s : GoString) : builder :=
  { b with sb := b.sb ++ s }

/-- Go's `sb.WriteByte(c)` on the `strings.Builder` of `b`. -/
def WriteByte (b : builder) (c : Char) : builder :=
  { b with sb := b.sb ++ [c] }

/-- `quote` (lines 18-22 of `builder.go`). -/
def quote (b : builder) (name : GoString) : builder :=
  ((b.WriteByte b.quoter).WriteString name).WriteByte b.quoter

/-- `addArg` (lines 33-41 of `builder.go`). -/
def addArg (b : builder) (vals : List GoAny) : builder :=
  if vals.length = 0 then b
  else
    let b1 : builder :=
      match b.args with
      | none => { b with args := some [] }
      | some _ => b
    { b1 with args := some (b1.args.getD [] ++ vals) }

end builder

/-- The interface `Dialect`: the byte that `quoter()` returns, and `buildUpsert`, which
writes into a builder and may return an error. -/
structure Dialect where
  quoter : Char
  buildUpsert : builder → Upsert → builder × Option Error

/-- The struct `DB`, for rows of type `T`: `r` is `db.r.Get`, the registry, `creator` is
`db.creator(model, v).Field(name)`, the value accessor. -/
structure DB (T : Type) where
  r : T → Except Error Model
  creator : Model → T → GoString → Except Error GoAny
  dialect : Dialect

/-- The struct `Inserter[T]`. -/
structure Inserter (T : Type) where
  builder : builder
  dialect : Dialect
  values : List T
  db : DB T
  columns : List GoString
  onDuplicateKey : Option Upsert

/-- The struct `UpsertBuilder[T]`. -/
structure UpsertBuilder (T : Type) where
  i : Inserter T
  conflictColumns : List GoString

/-- `NewInserter` (lines 47-55). -/
def NewInserter {T : Type} (db : DB T) : Inserter T :=
  ⟨⟨[], none, none, db.dialect.quoter⟩, db.dialect, [], db, [], none⟩

namespace Inserter

/-- `Values` (lines 70-73). -/
def Values {T : Type} (i : Inserter T) (vals : List T) : Inserter T :=
  { i with values := vals }

/-- `Columns` (lines 75-78). -/
def Columns {T : Type} (i : Inserter T) (cols : List GoString) : Inserter T :=
  { i with columns := cols }

/-- `OnDuplicateKey` (lines 62-66). -/
def OnDuplicateKey {T : Type} (i : Inserter T) : UpsertBuilder T :=
  ⟨i, []⟩

end Inserter

/-- `ConflictColumns` (lines 20-23). -/
def UpsertBuilder.ConflictColumns {T : Type} (o : UpsertBuilder T) (cols : List GoString) :
    UpsertBuilder T :=
  { o with conflictColumns := cols }

/-- `Update` (lines 25-31). -/
def UpsertBuilder.Update {T : Type} (o : UpsertBuilder T) (assigns : List Assignable) :
    Inserter T :=
  { o.i with onDuplicateKey := some ⟨assigns, o.conflictColumns⟩ }

/-- The loop of lines 100-107 of `Build`: the fields that the names `columns` stand for,
appended to `fields`; the first unknown name is an error. -/
def lookupFields (m : Model) : List GoString → List Field → Except Error (List Field)
  | [], fields => Except.ok fields
  | fd :: rest, fields =>
    match mapGet m.FieldMap fd with
    | none => Except.error (Error.ErrUnknownField fd)
    | some fdMeta => lookupFields m rest (fields ++ [fdMeta])

/-- The loop of lines 113-118 of `Build`, from index `idx` on. -/
def writeColumns : builder → List Field → Nat → builder
  | b, [], _ => b
  | b, field :: rest, idx =>
    writeColumns ((if idx > 0 then b.WriteByte ',' else b).quote field.ColName) rest (idx + 1)

/-- The inner loop of lines 131-142 of `Build` for one row, from index `idx` on; `val` is
`val.Field`. The error of a field ends the loop. -/
def writeRow (val : GoString → Except Error GoAny) :
    builder → List Field → Nat → builder × Option Error
  | b, [], _ => (b, none)
  | b, field :: rest, idx =>
    match val field.GoName with
    | Except.error err => (((if idx > 0 then b.WriteByte ',' else b).WriteByte '?'), some err)
    | Except.ok arg =>
      writeRow val (((if idx > 0 then b.WriteByte ',' else b).WriteByte '?').addArg [arg])
        rest (idx + 1)

/-- The loop of lines 125-144 of `Build`, from row index `j` on; `creator v` is
`i.db.creator(i.model, v)`. -/
def writeRows {T : Type} (creator : T → GoString → Except Error GoAny) (fields : List Field) :
    builder → List T → Nat → builder × Option Error
  | b, [], _ => (b, none)
  | b, v :: rest, j =>
    match writeRow (creator v) ((if j > 0 then b.WriteByte ',' else b).WriteByte '(') fields 0 with
    | (b1, some err) => (b1, some err)
    | (b1, none) => writeRows creator fields (b1.WriteByte ')') rest (j + 1)

/-- `Build` (lines 80-154): the inserter after the call, and the query or the error
returned. When the registry returns an error, the model it returns is `nil`. -/
def Inserter.Build {T : Type} (i : Inserter T) : Inserter T × Except Error Query :=
  match i.values with
  | [] => (i, Except.error Error.ErrInsertZeroRow)
  | first :: _ =>
    let b0 := i.builder.WriteString "INSERT INTO ".toList
    match i.db.r first with
    | Except.error err => ({ i with builder := { b0 with model := none } }, Except.error err)
    | Except.ok m =>
      let b1 : Orm.builder := { b0 with model := some m }
      let b2 := (b1.quote m.TableName).WriteByte '('
      match (if i.columns.length > 0 then lookupFields m i.columns [] else Except.ok m.Fields) with
      | Except.error err => ({ i with builder := b2 }, Except.error err)
      | Except.ok fields =>
        let b3 := ((writeColumns b2 fields 0).WriteByte ')').WriteString " VALUES ".toList
        let b4 : Orm.builder := { b3 with args := some [] }
        match writeRows (i.db.creator m) fields b4 i.values 0 with
        | (b5, some err) => ({ i with builder := b5 }, Except.error err)
        | (b5, none) =>
          match i.onDuplicateKey with
          | none =>
            ({ i with builder := b5.WriteByte ';' },
              Except.ok ⟨(b5.WriteByte ';').sb, (b5.WriteByte ';').args⟩)
          | some upsert =>
            match i.dialect.buildUpsert b5 upsert with
            | (b6, some err) => ({ i with builder := b6 }, Except.error err)
            | (b6, none) =>
              ({ i with builder := b6.WriteByte ';' },
                Except.ok ⟨(b6.WriteByte ';').sb, (b6.WriteByte ';').args⟩)

/-! ## The words of the claims on `Build` -/

/-- The name `name` between two quote characters. -/
def quoted (q : Char) (name : GoString) : GoString :=
  [q] ++ name ++ [q]

/-- The texts `parts` with a comma between each two. -/
def commaSep : List GoString → GoString
  | [] => []
  | [part] => part
  | part :: next :: rest => part ++ [','] ++ commaSep (next :: rest)

/-- The text of an insert statement without upsert clause: the quoted table, the quoted
columns, and `rows` groups of one placeholder for each column. -/
def insertSQL (q : Char) (table : GoString) (cols : List GoString) (rows : Nat) : GoString :=
  "INSERT INTO ".toList ++ quoted q table ++ ['('] ++ commaSep (cols.map (quoted q))
    ++ ") VALUES ".toList
    ++ commaSep (List.replicate rows (['('] ++ commaSep (List.replicate cols.length ['?']) ++ [')']))
    ++ [';']

/-- The fields that the names `cols` stand for, in their order; `none` when a name is
unknown. -/
def namedFields (m : Model) : List GoString → Option (List Field)
  | [] => some []
  | c :: rest =>
    match mapGet m.FieldMap c, namedFields m rest with
    | some f, some fs => some (f :: fs)
    | _, _ => none

/-- The column list of an insert: all the fields of the model when no column is named,
the named fields when all the names are known. -/
def chosenFields (m : Model) (cols : List GoString) : Option (List Field) :=
  if cols = [] then some m.Fields else namedFields m cols

/-- The first of the names `cols` that the model does not know. -/
def firstUnknown (m : Model) (cols : List GoString) : Option GoString :=
  cols.find? (fun c => (mapGet m.FieldMap c).isNone)

/-! ## The model of the tests -/

/-- The struct `TestModel`, as `insert_test.go` fills it. -/
structure TestModel where
  Id : Int
  FirstName : GoString
  Age : Int
  LastName : GoString
  deriving DecidableEq

/-- The model of `TestModel`, as the statements expected by `insert_test.go` show it. -/
def testModel : Model :=
  { TableName := "test_model".toList
    Fields := [⟨"id".toList, "Id".toList⟩, ⟨"first_name".toList, "FirstName".toList⟩,
      ⟨"age".toList, "Age".toList⟩, ⟨"last_name".toList, "LastName".toList⟩]
    FieldMap := [("Id".toList, ⟨"id".toList, "Id".toList⟩),
      ("FirstName".toList, ⟨"first_name".toList, "FirstName".toList⟩),
      ("Age".toList, ⟨"age".toList, "Age".toList⟩),
      ("LastName".toList, ⟨"last_name".toList, "LastName".toList⟩)] }

/-- The value of the field `name` of a `TestModel`. -/
def testField (v : TestModel) (name : GoString) : Except Error GoAny :=
  if name = "Id".toList then Except.ok (GoAny.int v.Id)
  else if name = "FirstName".toList then Except.ok (GoAny.str v.FirstName)
  else if name = "Age".toList then Except.ok (GoAny.int v.Age)
  else if name = "LastName".toList then Except.ok (GoAny.nullString v.LastName true)
  else Except.error (Error.ErrUnknownField name)

/-- The database of the tests (`memoryDB`): its dialect quotes with the back quote, byte
96; no test of this development reaches its upsert clause, which writes nothing here. -/
def memoryDB : DB TestModel :=
  { r := fun _ => Except.ok testModel
    creator := fun _ v name => testField v name
    dialect := ⟨Char.ofNat 96, fun b _ => (b, none)⟩ }

/-- The two rows of the test cases of `TestInserter_Build`. -/
def testRows : List TestModel :=
  [⟨12, "Tom".toList, 18, "Jerry".toList⟩, ⟨13, "DaMing".toList, 19, "Deng".toList⟩]

/-- The inserter `NewInserter[TestModel](db).Values(row1)` of the test case `single row`. -/
def singleRowInserter : Inserter TestModel :=
  (NewInserter memoryDB).Values [⟨12, "Tom".toList, 18, "Jerry".toList⟩]

/-- The inserter `NewInserter[TestModel](db).Columns("Invalid").Values(row1, row2)`. -/
def unknownColumnInserter : Inserter TestModel :=
  ((NewInserter memoryDB).Columns ["Invalid".toList]).Values testRows

/-- The inserter `NewInserter[TestModel](db).Columns("Id", "FirstName").Values(row1, row2)`
of the test case `partial columns`. -/
def partialColumnsInserter : Inserter TestModel :=
  ((NewInserter memoryDB).Columns ["Id".toList, "FirstName".toList]).Values testRows

end Orm

namespace Web

/-! ## Maps: reading after writing -/

theorem mapGet_mapSet_same {V : Type} (m : List (GoString × V)) (k : GoString) (v : V) :
    mapGet (mapSet m k v) k = some v := by
  induction m with
  | nil => simp [mapSet, mapGet]
  | cons e rest ih =>
    obtain ⟨k', v'⟩ := e
    by_cases hk : k' = k
    · simp [mapSet, mapGet, hk]
    · simp [mapSet, mapGet, hk, ih]

theorem mapGet_mapSet_other {V : Type} (m : List (GoString × V)) (k k' : GoString) (v : V)
    (hne : k' ≠ k) : mapGet (mapSet m k v) k' = mapGet m k' := by
  induction m with
  | nil => simp [mapSet, mapGet, Ne.symm hne]
  | cons e rest ih =>
    obtain ⟨k0, v0⟩ := e
    by_cases hk : k0 = k
    · subst hk
      simp [mapSet, mapGet, Ne.symm hne]
    · by_cases hk2 : k0 = k'
      · subst hk2
        simp [mapSet, mapGet, hk]
      · simp [mapSet, mapGet, hk, hk2, ih]

theorem mapSet_mapSet {V : Type} (m : List (GoString × V)) (k : GoString) (v w : V) :
    mapSet (mapSet m k v) k w = mapSet m k w := by
  induction m with
  | nil => simp [mapSet]
  | cons e rest ih =>
    obtain ⟨k', v'⟩ := e
    by_cases hk : k' = k
    · simp [mapSet, hk]
    · simp [mapSet, hk, ih]

theorem mapSet_of_mapGet {V : Type} (m : List (GoString × V)) (k : GoString) (v : V)
    (hget : mapGet m k = some v) : mapSet m k v = m := by
  induction m with
  | nil => simp [mapGet] at hget
  | cons e rest ih =>
    obtain ⟨k', v'⟩ := e
    by_cases hk : k' = k
    · simp [mapGet, hk] at hget
      simp [mapSet, hk, hget]
    · simp [mapGet, hk] at hget
      simp [mapSet, hk, ih hget]

/-! ## Nodes: fields after an assignment -/

namespace node

@[simp] theorem path_setChildren (n : node) (c : Option (List (GoString × node))) :
    (n.setChildren c).path = n.path := by
  cases n; rfl

@[simp] theorem handler_setChildren (n : node) (c : Option (List (GoString × node))) :
    (n.setChildren c).handler = n.handler := by
  cases n; rfl

@[simp] theorem children_setChildren (n : node) (c : Option (List (GoString × node))) :
    (n.setChildren c).children = c := by
  cases n; rfl

@[simp] theorem starChild_setChildren (n : node) (c : Option (List (GoString × node))) :
    (n.setChildren c).starChild = n.starChild := by
  cases n; rfl

@[simp] theorem paramChild_setChildren (n : node) (c : Option (List (GoString × node))) :
    (n.setChildren c).paramChild = n.paramChild := by
  cases n; rfl

@[simp] theorem regChild_setChildren (n : node) (c : Option (List (GoString × node))) :
    (n.setChildren c).regChild = n.regChild := by
  cases n; rfl

@[simp] theorem paramName_setChildren (n : node) (c : Option (List (GoString × node))) :
    (n.setChildren c).paramName = n.paramName := by
  cases n; rfl

@[simp] theorem regExpr_setChildren (n : node) (c : Option (List (GoString × node))) :
    (n.setChildren c).regExpr = n.regExpr := by
  cases n; rfl

@[simp] theorem setChildren_setChildren (n : node) (c d : Option (List (GoString × node))) :
    (n.setChildren c).setChildren d = n.setChildren d := by
  cases n; rfl

theorem setChildren_children (n : node) : n.setChildren n.children = n := by
  cases n; rfl

@[simp] theorem path_setHandler (n : node) (h : HandleFunc) : (n.setHandler h).path = n.path := by
  cases n; rfl

@[simp] theorem handler_setHandler (n : node) (h : HandleFunc) :
    (n.setHandler h).handler = h := by
  cases n; rfl

@[simp] theorem children_setHandler (n : node) (h : HandleFunc) :
    (n.setHandler h).children = n.children := by
  cases n; rfl

@[simp] theorem childrenGet_setHandler (n : node) (h : HandleFunc) (k : GoString) :
    (n.setHandler h).childrenGet k = n.childrenGet k := by
  simp [childrenGet]

@[simp] theorem path_storeChild (n : node) (k : GoString) (c : node) :
    (n.storeChild k c).path = n.path := by
  simp [storeChild]

@[simp] theorem handler_storeChild (n : node) (k : GoString) (c : node) :
    (n.storeChild k c).handler = n.handler := by
  simp [storeChild]

@[simp] theorem childrenGet_storeChild_same (n : node) (k : GoString) (c : node) :
    (n.storeChild k c).childrenGet k = some c := by
  simp [storeChild, childrenGet, mapGet_mapSet_same]

theorem childrenGet_storeChild_other (n : node) (k k' : GoString) (c : node) (hne : k' ≠ k) :
    (n.storeChild k c).childrenGet k' = n.childrenGet k' := by
  cases hc : n.children with
  | none => simp [storeChild, childrenGet, hc, mapSet, mapGet, Ne.symm hne]
  | some m => simp [storeChild, childrenGet, hc, mapGet_mapSet_other _ _ _ _ hne]

@[simp] theorem storeChild_storeChild (n : node) (k : GoString) (c d : node) :
    (n.storeChild k c).storeChild k d = n.storeChild k d := by
  simp [storeChild, mapSet_mapSet]

theorem storeChild_of_childrenGet (n : node) (k : GoString) (c : node)
    (hget : n.childrenGet k = some c) : n.storeChild k c = n := by
  cases hc : n.children with
  | none => simp [childrenGet, hc] at hget
  | some m =>
    simp [childrenGet, hc] at hget
    simp [storeChild, hc, mapSet_of_mapGet m k c hget]
    rw [← hc]
    exact setChildren_children n

theorem childOrCreate_snd (n : node) (seg : GoString) :
    (n.childOrCreate seg).2 = n.childFor seg := by
  unfold childOrCreate childFor
  cases n.childrenGet seg <;> rfl

theorem childOrCreate_fst (n : node) (seg : GoString) :
    (n.childOrCreate seg).1 = n.storeChild seg (n.childFor seg) := by
  unfold childOrCreate childFor
  cases hget : n.childrenGet seg with
  | some c => simp [storeChild_of_childrenGet n seg c hget]
  | none =>
    cases hc : n.children with
    | none => simp [storeChild, hc]
    | some m => simp

theorem addRouteFrom_nil (n : node) (h : HandleFunc) :
    n.addRouteFrom [] h =
      if n.handler ≠ none then (n, true) else (n.setHandler h, false) := by
  simp [addRouteFrom]

theorem addRouteFrom_cons (n : node) (seg : GoString) (rest : List GoString) (h : HandleFunc) :
    n.addRouteFrom (seg :: rest) h =
      (n.storeChild seg ((n.childFor seg).addRouteFrom rest h).1,
        ((n.childFor seg).addRouteFrom rest h).2) := by
  simp [addRouteFrom, childOrCreate_snd, childOrCreate_fst]

/-! ## Nodes: what registration does below a node -/

@[simp] theorem descend_nil (n : node) : n.descend [] = some n := rfl

theorem descend_cons (n : node) (k : GoString) (ks : List GoString) :
    n.descend (k :: ks) = (n.childrenGet k).bind (fun c => c.descend ks) := by
  simp only [descend]
  cases n.childrenGet k <;> rfl

@[simp] theorem handlerAt_nil (n : node) : n.handlerAt [] = n.handler := rfl

theorem handlerAt_cons (n : node) (k : GoString) (ks : List GoString) :
    n.handlerAt (k :: ks) = (n.childrenGet k).bind (fun c => c.handlerAt ks) := by
  simp only [handlerAt, descend_cons]
  cases n.childrenGet k <;> rfl

@[simp] theorem childrenGet_newChild (seg k : GoString) : (newChild seg).childrenGet k = none := rfl

theorem descend_newChild (seg : GoString) (ks : List GoString) :
    (newChild seg).descend ks = if ks = [] then some (newChild seg) else none := by
  cases ks with
  | nil => rfl
  | cons k rest => simp [descend_cons]

theorem handlerAt_newChild (seg : GoString) (ks : List GoString) :
    (newChild seg).handlerAt ks = none := by
  cases ks with
  | nil => rfl
  | cons k rest => simp [handlerAt_cons]

theorem descend_childFor (n : node) (seg : GoString) (ks : List GoString) :
    ((n.childFor seg).descend ks).isSome = ((n.descend (seg :: ks)).isSome || decide (ks = [])) := by
  unfold childFor
  cases hget : n.childrenGet seg with
  | none =>
    cases ks <;> simp [descend_cons, hget, descend_newChild]
  | some c =>
    cases ks <;> simp [descend_cons, hget]

theorem handlerAt_childFor (n : node) (seg : GoString) (ks : List GoString) :
    (n.childFor seg).handlerAt ks = n.handlerAt (seg :: ks) := by
  unfold childFor
  cases hget : n.childrenGet seg with
  | none => simp [handlerAt_cons, hget, handlerAt_newChild]
  | some c => simp [handlerAt_cons, hget]

theorem path_addRouteFrom (n : node) (segs : List GoString) (h : HandleFunc) :
    (n.addRouteFrom segs h).1.path = n.path := by
  cases segs with
  | nil =>
    rw [addRouteFrom_nil]
    split <;> simp
  | cons seg rest => simp [addRouteFrom_cons]

/-- The route conflict is raised exactly when the node reached along the segments
exists and has a handler. -/
theorem addRouteFrom_conflict (n : node) (segs : List GoString) (h : HandleFunc) :
    (n.addRouteFrom segs h).2 = true ↔ n.handlerAt segs ≠ none := by
  induction segs generalizing n with
  | nil =>
    rw [addRouteFrom_nil]
    by_cases hh : n.handler = none <;> simp [hh]
  | cons seg rest ih =>
    rw [addRouteFrom_cons]
    simp only [ih, handlerAt_childFor]

/-- A registration that raises the route conflict leaves the tree as it was. -/
theorem addRouteFrom_of_conflict (n : node) (segs : List GoString) (h : HandleFunc)
    (hc : (n.addRouteFrom segs h).2 = true) : (n.addRouteFrom segs h).1 = n := by
  induction segs generalizing n with
  | nil =>
    rw [addRouteFrom_nil] at hc ⊢
    by_cases hh : n.handler = none
    · simp [hh] at hc
    · simp [hh]
  | cons seg rest ih =>
    rw [addRouteFrom_cons] at hc ⊢
    simp only at hc ⊢
    rw [ih _ hc]
    have hne := (addRouteFrom_conflict _ _ _).1 hc
    rw [handlerAt_childFor, handlerAt_cons] at hne
    cases hget : n.childrenGet seg with
    | none => simp [hget] at hne
    | some c =>
      have hcf : n.childFor seg = c := by simp [childFor, hget]
      rw [hcf]
      exact storeChild_of_childrenGet n seg c hget

/-- After a registration without conflict the handlers of the tree are the former
ones, but for the node reached along the segments, which has the new handler. -/
theorem handlerAt_addRouteFrom (n : node) (segs : List GoString) (h : HandleFunc)
    (hc : (n.addRouteFrom segs h).2 = false) (ks : List GoString) :
    (n.addRouteFrom segs h).1.handlerAt ks = if ks = segs then h else n.handlerAt ks := by
  induction segs generalizing n ks with
  | nil =>
    rw [addRouteFrom_nil] at hc ⊢
    by_cases hh : n.handler = none
    · cases ks with
      | nil => simp [hh]
      | cons k rest => simp [hh, handlerAt_cons]
    · simp [hh] at hc
  | cons seg rest ih =>
    rw [addRouteFrom_cons] at hc ⊢
    simp only at hc ⊢
    cases ks with
    | nil => simp
    | cons k ks' =>
      by_cases hk : k = seg
      · subst hk
        rw [handlerAt_cons, childrenGet_storeChild_same]
        simp only [Option.some_bind, ih _ hc, handlerAt_childFor]
        by_cases hks : ks' = rest <;> simp [hks]
      · rw [handlerAt_cons, childrenGet_storeChild_other _ _ _ _ hk, ← handlerAt_cons]
        simp [hk]

/-- After a registration the nodes of the tree are the former ones and one node for
each prefix of the segments. -/
theorem descend_addRouteFrom (n : node) (segs : List GoString) (h : HandleFunc)
    (ks : List GoString) :
    ((n.addRouteFrom segs h).1.descend ks).isSome =
      ((n.descend ks).isSome || ks.isPrefixOf segs) := by
  induction segs generalizing n ks with
  | nil =>
    rw [addRouteFrom_nil]
    cases ks with
    | nil => simp
    | cons k rest =>
      by_cases hh : n.handler = none <;> simp [hh, descend_cons]
  | cons seg rest ih =>
    rw [addRouteFrom_cons]
    simp only
    cases ks with
    | nil => simp
    | cons k ks' =>
      by_cases hk : k = seg
      · subst hk
        rw [descend_cons, childrenGet_storeChild_same]
        simp only [Option.some_bind, ih, descend_childFor]
        cases ks' <;> simp [List.isPrefixOf]
      · rw [descend_cons, childrenGet_storeChild_other _ _ _ _ hk, ← descend_cons]
        simp [List.isPrefixOf, hk]

end node

/-! ## Validation -/

theorem len_eq_zero_iff (s : GoString) : len s = 0 ↔ s = [] := by
  cases s with
  | nil => simp [len]
  | cons c cs =>
    have hpos := Char.utf8Size_pos c
    simp [len]
    omega

theorem len_append (s t : GoString) : len (s ++ t) = len s + len t := by
  simp [len]

theorem hasPrefix_slash_iff (p : GoString) :
    HasPrefix p "/".toList = true ↔ p.head? = some '/' := by
  have hs : "/".toList = ['/'] := rfl
  rw [hs, HasPrefix, List.isPrefixOf_iff_prefix, List.head?_eq_some_iff]
  constructor
  · rintro ⟨t, ht⟩
    exact ⟨t, ht.symm⟩
  · rintro ⟨t, ht⟩
    exact ⟨t, ht.symm⟩

theorem hasSuffix_slash_iff (p : GoString) :
    HasSuffix p "/".toList = true ↔ p.getLast? = some '/' := by
  have hs : "/".toList = ['/'] := rfl
  rw [hs, HasSuffix, List.isSuffixOf_iff_suffix, List.getLast?_eq_some_iff]
  constructor
  · rintro ⟨t, ht⟩
    exact ⟨t, ht.symm⟩
  · rintro ⟨t, ht⟩
    exact ⟨t, ht.symm⟩

theorem len_eq_one_iff_of_getLast (p : GoString) (hlast : p.getLast? = some '/') :
    len p = 1 ↔ p = ['/'] := by
  obtain ⟨q, rfl⟩ := List.getLast?_eq_some_iff.1 hlast
  have hone : len ['/'] = 1 := by decide
  rw [len_append, hone]
  constructor
  · intro h
    have hq : len q = 0 := by omega
    rw [(len_eq_zero_iff q).1 hq]
    rfl
  · intro h
    have hq : q = [] := by
      cases q with
      | nil => rfl
      | cons c cs =>
        have := congrArg List.length h
        simp at this
    rw [hq]
    rfl

theorem contains_iff (s sub : GoString) : Contains s sub = true ↔ sub <:+: s := by
  induction s with
  | nil => simp [Contains, List.isEmpty_iff]
  | cons c cs ih =>
    rw [Contains, Bool.or_eq_true, ih, List.isPrefixOf_iff_prefix, List.infix_cons_iff]

/-- The call `checkPath(path)` returns exactly on the valid patterns. -/
theorem checkPath_eq_none_iff (p : GoString) : checkPath p = none ↔ ValidPattern p := by
  have hs : "/".toList = ['/'] := rfl
  have hss : "//".toList = ['/', '/'] := rfl
  unfold checkPath ValidPattern
  rw [hs, hss]
  by_cases h0 : len p = 0
  · have hnil := (len_eq_zero_iff p).1 h0
    rw [if_pos h0]
    simp [hnil]
  · have hne : p ≠ [] := fun h => h0 ((len_eq_zero_iff p).2 h)
    rw [if_neg h0]
    by_cases hpre : HasPrefix p ['/'] = true
    · have hhead := (hasPrefix_slash_iff p).1 hpre
      rw [if_neg (by rw [hpre]; decide)]
      by_cases hsuf : HasSuffix p ['/'] = true
      · have hlast := (hasSuffix_slash_iff p).1 hsuf
        by_cases h1 : len p = 1
        · have hp := (len_eq_one_iff_of_getLast p hlast).1 h1
          subst hp
          decide
        · have hp : p ≠ ['/'] := fun h => h1 ((len_eq_one_iff_of_getLast p hlast).2 h)
          rw [if_pos (by simp [hsuf, h1])]
          simp [hlast, hp]
      · have hlast : ¬ p.getLast? = some '/' := fun h => hsuf ((hasSuffix_slash_iff p).2 h)
        rw [if_neg (by simp [hsuf])]
        by_cases hdbl : HasPrefix p ['/', '/'] = true
        · have hinf : ['/', '/'] <:+: p := by
            rw [HasPrefix, List.isPrefixOf_iff_prefix] at hdbl
            exact hdbl.isInfix
          rw [if_pos hdbl]
          simp [hinf]
        · rw [if_neg hdbl]
          by_cases hcon : Contains p ['/', '/'] = true
          · have hinf : ['/', '/'] <:+: p := (contains_iff p _).1 hcon
            rw [if_pos hcon]
            simp [hinf]
          · have hinf : ¬ ['/', '/'] <:+: p := fun h => hcon ((contains_iff p _).2 h)
            rw [if_neg hcon]
            simp [hinf, hne, hhead, hlast]
    · have hhead : ¬ p.head? = some '/' := fun h => hpre ((hasPrefix_slash_iff p).2 h)
      rw [if_pos (by simp [hpre])]
      simp [hhead]

/-! ## Segmentation -/

theorem foldl_keep_eq_filter (skip : GoString → Prop) [DecidablePred skip]
    (pieces : List GoString) (init : List GoString) :
    pieces.foldl (fun result seg => if skip seg then result else result ++ [seg]) init =
      init ++ pieces.filter (fun seg => !decide (skip seg)) := by
  induction pieces generalizing init with
  | nil => simp
  | cons piece rest ih =>
    rw [List.foldl_cons, ih]
    by_cases hs : skip piece <;> simp [hs, List.filter_cons]

/-- The segments are the root marker followed by the pieces that are not blank. -/
theorem pathSegment_eq (path : GoString) :
    pathSegment path =
      ['/'] :: (Split path '/').filter (fun seg => !decide (len (TrimSpace seg) = 0)) := by
  unfold pathSegment
  rw [foldl_keep_eq_filter (fun seg => len (TrimSpace seg) = 0)]
  rfl

theorem pathSegment_eq_cons_tail (path : GoString) :
    pathSegment path = ['/'] :: (pathSegment path).tail := by
  rw [pathSegment_eq]
  rfl

/-! ## The router: what a registration does -/

namespace router

theorem newRootNode_eq : newRootNode = node.newChild ['/'] := rfl

theorem mapGet_initRoot (r : router) (m m' : GoString) :
    mapGet (r.initRoot m).trees m' = if m' = m then some (r.rootFor m) else mapGet r.trees m' := by
  unfold initRoot rootFor
  cases hget : mapGet r.trees m with
  | none =>
    by_cases hm : m' = m
    · subst hm
      simp [mapGet_mapSet_same]
    · simp [hm, mapGet_mapSet_other _ _ _ _ hm]
  | some root =>
    by_cases hm : m' = m
    · subst hm
      simp [hget]
    · simp [hm]

theorem initRoot_of_mapGet (r : router) (m : GoString) (root : node)
    (hget : mapGet r.trees m = some root) : r.initRoot m = r := by
  simp [initRoot, hget]

theorem handlerAt_rootFor (r : router) (m : GoString) (ks : List GoString) :
    (r.rootFor m).handlerAt ks = r.handlerAt m ks := by
  unfold rootFor handlerAt nodeAt
  cases hget : mapGet r.trees m with
  | none => simp [newRootNode_eq, node.handlerAt_newChild]
  | some root => simp [node.handlerAt]

theorem descend_rootFor (r : router) (m : GoString) (ks : List GoString) :
    ((r.rootFor m).descend ks).isSome = ((r.nodeAt m ks).isSome || decide (ks = [])) := by
  unfold rootFor nodeAt
  cases hget : mapGet r.trees m with
  | none =>
    cases ks <;> simp [newRootNode_eq, node.descend_newChild]
  | some root =>
    cases ks <;> simp

theorem addRoute_of_checkPath_some (r : router) (m p : GoString) (h : HandleFunc)
    (msg : GoString) (hv : checkPath p = some msg) : r.addRoute m p h = ⟨r, some msg⟩ := by
  simp [addRoute, hv]

theorem addRoute_of_checkPath_none (r : router) (m p : GoString) (h : HandleFunc)
    (hv : checkPath p = none) :
    r.addRoute m p h =
      ⟨⟨mapSet (r.initRoot m).trees m
          ((r.rootFor m).addRouteFrom ((pathSegment p).tail) h).1⟩,
        if ((r.rootFor m).addRouteFrom ((pathSegment p).tail) h).2 then
          some (routeConflict p) else none⟩ := by
  have hroot := mapGet_initRoot r m m
  simp only [if_true] at hroot
  simp [addRoute, hv, hroot]

/-- A registration returns exactly when the pattern is valid and the node reached
along its segments has no handler yet. -/
theorem panic_addRoute_eq_none_iff (r : router) (m p : GoString) (h : HandleFunc) :
    (r.addRoute m p h).panic = none ↔
      checkPath p = none ∧ r.handlerAt m ((pathSegment p).tail) = none := by
  cases hv : checkPath p with
  | some msg => simp [addRoute_of_checkPath_some r m p h msg hv]
  | none =>
    rw [addRoute_of_checkPath_none r m p h hv]
    have hc := node.addRouteFrom_conflict (r.rootFor m) ((pathSegment p).tail) h
    rw [handlerAt_rootFor] at hc
    by_cases hcon : ((r.rootFor m).addRouteFrom ((pathSegment p).tail) h).2 = true
    · have := hc.1 hcon
      simp [hcon, this]
    · have hnone : r.handlerAt m ((pathSegment p).tail) = none := by
        by_contra hne
        exact hcon (hc.2 hne)
      simp [hcon, hnone]

theorem mapGet_addRoute (r : router) (m p : GoString) (h : HandleFunc)
    (hv : checkPath p = none) (m' : GoString) :
    mapGet (r.addRoute m p h).state.trees m' =
      if m' = m then some ((r.rootFor m).addRouteFrom ((pathSegment p).tail) h).1
      else mapGet r.trees m' := by
  rw [addRoute_of_checkPath_none r m p h hv]
  by_cases hm : m' = m
  · subst hm
    simp [mapGet_mapSet_same]
  · simp [hm, mapGet_mapSet_other _ _ _ _ hm, mapGet_initRoot]

/-- After a registration that returns, the handlers of the router are the former ones,
but for the node of the method reached along the segments, which has the new handler. -/
theorem handlerAt_addRoute (r : router) (m p : GoString) (h : HandleFunc)
    (hok : (r.addRoute m p h).panic = none) (m' : GoString) (ks : List GoString) :
    (r.addRoute m p h).state.handlerAt m' ks =
      if m' = m ∧ ks = (pathSegment p).tail then h else r.handlerAt m' ks := by
  obtain ⟨hv, hfree⟩ := (panic_addRoute_eq_none_iff r m p h).1 hok
  have hcon : ((r.rootFor m).addRouteFrom ((pathSegment p).tail) h).2 = false := by
    have hc := node.addRouteFrom_conflict (r.rootFor m) ((pathSegment p).tail) h
    rw [handlerAt_rootFor] at hc
    cases hb : ((r.rootFor m).addRouteFrom ((pathSegment p).tail) h).2 with
    | false => rfl
    | true => exact absurd hfree (hc.1 hb)
  have hget := mapGet_addRoute r m p h hv m'
  unfold handlerAt nodeAt at *
  rw [hget]
  by_cases hm : m' = m
  · subst hm
    have := node.handlerAt_addRouteFrom (r.rootFor m') ((pathSegment p).tail) h hcon ks
    simp only [node.handlerAt] at this
    simp only [if_true, Option.some_bind, true_and]
    rw [this]
    by_cases hks : ks = (pathSegment p).tail
    · simp [hks]
    · simp only [hks, if_false]
      have hr := handlerAt_rootFor r m' ks
      simpa [node.handlerAt, handlerAt, nodeAt] using hr
  · simp [hm]

/-- After a registration of a valid pattern, the nodes of the router are the former
ones and one node of the method for each prefix of the segments. -/
theorem nodeAt_addRoute (r : router) (m p : GoString) (h : HandleFunc)
    (hv : checkPath p = none) (m' : GoString) (ks : List GoString) :
    ((r.addRoute m p h).state.nodeAt m' ks).isSome =
      ((r.nodeAt m' ks).isSome ||
        (decide (m' = m) && ks.isPrefixOf ((pathSegment p).tail))) := by
  have hget := mapGet_addRoute r m p h hv m'
  by_cases hm : m' = m
  · subst hm
    simp only [nodeAt, hget, if_true, Option.some_bind, decide_True, Bool.true_and]
    rw [node.descend_addRouteFrom, descend_rootFor]
    simp only [nodeAt]
    cases ks <;> simp [List.isPrefixOf]
  · simp [nodeAt, hget, hm]

end router

/-! ## Registration on a fresh router -/

theorem node.addRouteFrom_newChild (seg : GoString) (segs : List GoString) (h : HandleFunc) :
    ((node.newChild seg).addRouteFrom segs h).2 = false ∧
      ∃ f, ((node.newChild seg).addRouteFrom segs h).1.descend segs = some f ∧
        (seg :: segs).getLast? = some f.path ∧ f.handler = h := by
  induction segs generalizing seg with
  | nil =>
    have hh : (node.newChild seg).handler = none := rfl
    rw [node.addRouteFrom_nil]
    simp only [hh, ne_eq, not_true_eq_false, if_false, node.descend_nil]
    exact ⟨trivial, _, rfl, by simp [node.newChild, node.setHandler, node.path], by simp⟩
  | cons s rest ih =>
    have hcf : (node.newChild seg).childFor s = node.newChild s := rfl
    obtain ⟨hno, f, hf, hlast, hh⟩ := ih s
    rw [node.addRouteFrom_cons, hcf]
    refine ⟨hno, f, ?_, ?_, hh⟩
    · rw [node.descend_cons, node.childrenGet_storeChild_same]
      exact hf
    · rw [List.getLast?_cons_cons]
      exact hlast

/-! ## The shape of the nodes -/

theorem keys_mapSet {V : Type} (m : List (GoString × V)) (k : GoString) (v : V) :
    (mapSet m k v).map Prod.fst =
      if k ∈ m.map Prod.fst then m.map Prod.fst else m.map Prod.fst ++ [k] := by
  induction m with
  | nil =>
    simp only [mapSet, List.map_cons, List.map_nil, List.not_mem_nil, if_false, List.nil_append]
  | cons e rest ih =>
    obtain ⟨k', v'⟩ := e
    by_cases hk : k' = k
    · subst hk
      simp only [mapSet, if_true, List.map_cons, List.mem_cons, true_or]
    · have hk2 : ¬ k = k' := fun h => hk h.symm
      simp only [mapSet, hk, if_false, List.map_cons, ih, List.mem_cons, hk2, false_or]
      split <;> rfl

theorem nodup_keys_mapSet {V : Type} (m : List (GoString × V)) (k : GoString) (v : V)
    (hm : (m.map Prod.fst).Nodup) : ((mapSet m k v).map Prod.fst).Nodup := by
  rw [keys_mapSet]
  split
  · exact hm
  · rename_i hk
    refine List.Nodup.append hm (List.nodup_singleton k) ?_
    intro a ha hak
    rw [List.mem_singleton] at hak
    exact hk (hak ▸ ha)

theorem node.plain_newChild (seg : GoString) : (node.newChild seg).Plain :=
  ⟨List.nodup_nil, rfl, rfl, rfl⟩

theorem node.plain_setHandler (n : node) (h : HandleFunc) (hn : n.Plain) :
    (n.setHandler h).Plain := by
  cases n
  exact hn

theorem node.plain_storeChild (n : node) (k : GoString) (c : node) (hn : n.Plain) :
    (n.storeChild k c).Plain := by
  obtain ⟨hkeys, hstar, hparam, hreg⟩ := hn
  refine ⟨?_, by simpa [node.storeChild] using hstar, by simpa [node.storeChild] using hparam,
    by simpa [node.storeChild] using hreg⟩
  unfold node.keys node.storeChild
  rw [node.children_setChildren]
  exact nodup_keys_mapSet _ _ _ hkeys

/-- Registration keeps every node below its start plain. -/
theorem node.plain_addRouteFrom (n : node) (segs : List GoString) (h : HandleFunc)
    (hn : ∀ ks f, n.descend ks = some f → f.Plain) :
    ∀ ks f, (n.addRouteFrom segs h).1.descend ks = some f → f.Plain := by
  induction segs generalizing n with
  | nil =>
    intro ks f hf
    rw [node.addRouteFrom_nil] at hf
    by_cases hh : n.handler = none
    · simp only [hh, ne_eq, not_true_eq_false, if_false] at hf
      cases ks with
      | nil =>
        simp only [node.descend_nil, Option.some.injEq] at hf
        rw [← hf]
        exact node.plain_setHandler n h (hn [] n rfl)
      | cons k rest =>
        rw [node.descend_cons, node.childrenGet_setHandler, ← node.descend_cons] at hf
        exact hn _ f hf
    · simp only [ne_eq, hh, not_false_eq_true, if_true] at hf
      exact hn ks f hf
  | cons seg rest ih =>
    intro ks f hf
    rw [node.addRouteFrom_cons] at hf
    simp only at hf
    cases ks with
    | nil =>
      simp only [node.descend_nil, Option.some.injEq] at hf
      rw [← hf]
      exact node.plain_storeChild n seg _ (hn [] n rfl)
    | cons k ks' =>
      by_cases hk : k = seg
      · subst hk
        rw [node.descend_cons, node.childrenGet_storeChild_same] at hf
        refine ih (n.childFor k) ?_ ks' f hf
        intro js g hg
        unfold node.childFor at hg
        cases hget : n.childrenGet k with
        | none =>
          rw [hget, Option.getD_none, node.descend_newChild] at hg
          by_cases hjs : js = []
          · simp only [hjs, if_true, Option.some.injEq] at hg
            rw [← hg]
            exact node.plain_newChild k
          · simp [hjs] at hg
        | some c =>
          rw [hget, Option.getD_some] at hg
          refine hn (k :: js) g ?_
          rw [node.descend_cons, hget]
          exact hg
      · rw [node.descend_cons, node.childrenGet_storeChild_other _ _ _ _ hk,
          ← node.descend_cons] at hf
        exact hn _ f hf

/-- A call of `addRoute`, panic or not, keeps every node of the router plain and holds
no method twice. -/
theorem router.plain_addRoute (r : router) (m p : GoString) (h : HandleFunc)
    (hr : ∀ m' ks f, r.nodeAt m' ks = some f → f.Plain)
    (hm : (r.trees.map Prod.fst).Nodup) :
    (∀ m' ks f, (r.addRoute m p h).state.nodeAt m' ks = some f → f.Plain) ∧
      ((r.addRoute m p h).state.trees.map Prod.fst).Nodup := by
  cases hv : checkPath p with
  | some msg =>
    rw [router.addRoute_of_checkPath_some r m p h msg hv]
    exact ⟨hr, hm⟩
  | none =>
    constructor
    · intro m' ks f hf
      unfold router.nodeAt at hf
      rw [router.mapGet_addRoute r m p h hv m'] at hf
      by_cases hmm : m' = m
      · subst hmm
        simp only [if_true, Option.some_bind] at hf
        refine node.plain_addRouteFrom (r.rootFor m') _ h ?_ ks f hf
        intro js g hg
        unfold router.rootFor at hg
        cases hget : mapGet r.trees m' with
        | none =>
          rw [hget, Option.getD_none, router.newRootNode_eq, node.descend_newChild] at hg
          by_cases hjs : js = []
          · simp only [hjs, if_true, Option.some.injEq] at hg
            rw [← hg]
            exact node.plain_newChild _
          · simp [hjs] at hg
        | some root =>
          rw [hget, Option.getD_some] at hg
          refine hr m' js g ?_
          simp only [router.nodeAt, hget, Option.some_bind]
          exact hg
      · simp only [hmm, if_false] at hf
        exact hr m' ks f hf
    · rw [router.addRoute_of_checkPath_none r m p h hv]
      refine nodup_keys_mapSet _ _ _ ?_
      unfold router.initRoot
      cases mapGet r.trees m with
      | none => exact nodup_keys_mapSet _ _ _ hm
      | some root => exact hm

theorem plain_registerAll (regs : List Route) (r : router)
    (hr : ∀ m ks f, r.nodeAt m ks = some f → f.Plain)
    (hm : (r.trees.map Prod.fst).Nodup) :
    (∀ m ks f, (registerAll r regs).state.nodeAt m ks = some f → f.Plain) ∧
      ((registerAll r regs).state.trees.map Prod.fst).Nodup := by
  induction regs generalizing r with
  | nil => exact ⟨hr, hm⟩
  | cons x rest ih =>
    obtain ⟨hr1, hm1⟩ := router.plain_addRoute r x.method x.path x.handler hr hm
    unfold registerAll
    cases hp : (r.addRoute x.method x.path x.handler).panic with
    | some msg => exact ⟨hr1, hm1⟩
    | none => exact ih _ hr1 hm1

/-! ## The claims -/

/-- Claim C1. For every valid pattern `p`, method `m` and handler `h`, `addRoute(m, p, h)`
on a fresh router does not panic, and afterwards the walk from `trees[m]` through the
`children` maps along the segments of `p` (`pathSegment(p)` without its leading `/`) reaches
a node whose `path` is the last segment (`/` for the root pattern) and whose handler is `h`. -/
theorem C1_addRoute_fresh_reaches_handler (m p : GoString) (h : HandleFunc)
    (hvalid : ValidPattern p) :
    (newRouter.addRoute m p h).panic = none ∧
      ∃ root n, mapGet (newRouter.addRoute m p h).state.trees m = some root ∧
        root.descend (pathSegment p).tail = some n ∧
        (pathSegment p).getLast? = some n.path ∧ n.handler = h := by
  have hv := (checkPath_eq_none_iff p).2 hvalid
  have hroot : newRouter.rootFor m = node.newChild ['/'] := rfl
  obtain ⟨_, f, hf, hlast, hh⟩ := node.addRouteFrom_newChild ['/'] (pathSegment p).tail h
  refine ⟨(router.panic_addRoute_eq_none_iff newRouter m p h).2 ⟨hv, rfl⟩,
    ((node.newChild ['/']).addRouteFrom (pathSegment p).tail h).1, f, ?_, hf, ?_, hh⟩
  · rw [router.mapGet_addRoute newRouter m p h hv m, if_pos rfl, hroot]
  · rw [pathSegment_eq_cons_tail]
    exact hlast

/-- Witness of C1 at `GET /order/detail`. -/
theorem C1_addRoute_fresh_reaches_handler_witness :
    ValidPattern "/order/detail".toList ∧
      (newRouter.addRoute "GET".toList "/order/detail".toList (some 7)).panic = none ∧
      ∃ root n,
        mapGet (newRouter.addRoute "GET".toList "/order/detail".toList (some 7)).state.trees
            "GET".toList = some root ∧
          root.descend (pathSegment "/order/detail".toList).tail = some n ∧
          (pathSegment "/order/detail".toList).getLast? = some n.path ∧ n.handler = some 7 :=
  ⟨by decide,
    C1_addRoute_fresh_reaches_handler "GET".toList "/order/detail".toList (some 7) (by decide)⟩

/-- Claim C2. When `addRoute(m, p, h1)` with a non-nil handler `h1` has returned, a second
`addRoute(m, p, h2)` panics with the route conflict of `p`; it leaves the router as the
first call left it, so the node of `p` still carries `h1`. -/
theorem C2_addRoute_twice_conflicts (r : router) (m p : GoString) (h1 h2 : HandleFunc)
    (hh1 : h1 ≠ none) (hfirst : (r.addRoute m p h1).panic = none) :
    ((r.addRoute m p h1).state.addRoute m p h2).panic = some (routeConflict p) ∧
      ((r.addRoute m p h1).state.addRoute m p h2).state = (r.addRoute m p h1).state ∧
      ((r.addRoute m p h1).state.addRoute m p h2).state.handlerAt m (pathSegment p).tail = h1 := by
  obtain ⟨hv, _⟩ := (router.panic_addRoute_eq_none_iff r m p h1).1 hfirst
  have hat : (r.addRoute m p h1).state.handlerAt m (pathSegment p).tail = h1 := by
    rw [router.handlerAt_addRoute r m p h1 hfirst, if_pos ⟨rfl, rfl⟩]
  generalize (r.addRoute m p h1).state = r1 at hat ⊢
  have hcon : ((r1.rootFor m).addRouteFrom (pathSegment p).tail h2).2 = true := by
    rw [node.addRouteFrom_conflict, router.handlerAt_rootFor, hat]
    exact hh1
  have hsame := node.addRouteFrom_of_conflict _ _ _ hcon
  have hpresent : mapGet r1.trees m = some (r1.rootFor m) := by
    unfold router.rootFor
    cases hget : mapGet r1.trees m with
    | none =>
      rw [router.handlerAt, router.nodeAt, hget] at hat
      exact absurd hat.symm hh1
    | some root => rfl
  have hstate : (r1.addRoute m p h2).state = r1 := by
    rw [router.addRoute_of_checkPath_none r1 m p h2 hv]
    simp only
    rw [hsame, router.initRoot_of_mapGet r1 m _ hpresent, mapSet_of_mapGet _ _ _ hpresent]
  refine ⟨?_, hstate, ?_⟩
  · rw [router.addRoute_of_checkPath_none r1 m p h2 hv]
    simp [hcon]
  · rw [hstate]
    exact hat

/-- Witness of C2: `GET /a/b/c` registered twice on a fresh router. -/
theorem C2_addRoute_twice_conflicts_witness :
    (((newRouter.addRoute "GET".toList "/a/b/c".toList (some 1)).state.addRoute
        "GET".toList "/a/b/c".toList (some 2)).panic = some (routeConflict "/a/b/c".toList)) ∧
      ((newRouter.addRoute "GET".toList "/a/b/c".toList (some 1)).state.addRoute
        "GET".toList "/a/b/c".toList (some 2)).state =
        (newRouter.addRoute "GET".toList "/a/b/c".toList (some 1)).state ∧
      ((newRouter.addRoute "GET".toList "/a/b/c".toList (some 1)).state.addRoute
        "GET".toList "/a/b/c".toList (some 2)).state.handlerAt "GET".toList
          (pathSegment "/a/b/c".toList).tail = some 1 :=
  C2_addRoute_twice_conflicts newRouter "GET".toList "/a/b/c".toList (some 1) (some 2)
    (by decide) (by decide)

/-- A pattern that is not valid makes `addRoute` panic, whatever the router. -/
theorem panic_addRoute_of_not_valid (r : router) (m p : GoString) (h : HandleFunc)
    (hbad : ¬ ValidPattern p) : (r.addRoute m p h).panic ≠ none := by
  intro hnone
  exact hbad ((checkPath_eq_none_iff p).1 ((router.panic_addRoute_eq_none_iff r m p h).1 hnone).1)

/-- Claim C3. `addRoute` panics for the empty pattern and for every pattern whose first
character is not `/`, whatever the router, the method and the handler. -/
theorem C3_addRoute_panics_without_leading_slash (r : router) (m p : GoString)
    (h : HandleFunc) (hhead : p = [] ∨ ∃ c cs, p = c :: cs ∧ c ≠ '/') :
    (r.addRoute m p h).panic ≠ none := by
  apply panic_addRoute_of_not_valid
  rintro ⟨hne, hslash, _⟩
  rcases hhead with hnil | ⟨c, cs, hp, hc⟩
  · exact hne hnil
  · subst hp
    simp at hslash
    exact hc hslash

/-- Witness of C3 at the pattern `login`. -/
theorem C3_addRoute_panics_without_leading_slash_witness :
    (newRouter.addRoute "POST".toList "login".toList (some 1)).panic ≠ none :=
  C3_addRoute_panics_without_leading_slash newRouter "POST".toList "login".toList (some 1)
    (Or.inr ⟨'l', "ogin".toList, rfl, by decide⟩)

/-- Claim C4. `addRoute` panics for every pattern of length greater than 1 that ends with
`/`, whatever the router, the method and the handler; and registering the pattern `/` on a
fresh router returns. -/
theorem C4_addRoute_trailing_slash (r : router) (m p : GoString) (h : HandleFunc)
    (hlen : 1 < len p) (hlast : p.getLast? = some '/') :
    (r.addRoute m p h).panic ≠ none ∧ (newRouter.addRoute m ['/'] h).panic = none := by
  constructor
  · apply panic_addRoute_of_not_valid
    rintro ⟨_, _, hroot, _⟩
    have hp := hroot hlast
    subst hp
    revert hlen
    decide
  · exact (router.panic_addRoute_eq_none_iff newRouter m ['/'] h).2 ⟨by decide, rfl⟩

/-- Witness of C4 at the pattern `/a/b/c/`. -/
theorem C4_addRoute_trailing_slash_witness :
    (newRouter.addRoute "GET".toList "/a/b/c/".toList (some 1)).panic ≠ none ∧
      (newRouter.addRoute "GET".toList ['/'] (some 1)).panic = none :=
  C4_addRoute_trailing_slash newRouter "GET".toList "/a/b/c/".toList (some 1)
    (by decide) (by decide)

/-- Claim C5. `addRoute` panics for every pattern that contains two consecutive `/`,
whatever the router, the method and the handler; so a pattern whose registration
returns has no empty segment between two slashes. -/
theorem C5_addRoute_panics_on_double_slash (r : router) (m p : GoString) (h : HandleFunc)
    (hdouble : ['/', '/'] <:+: p) : (r.addRoute m p h).panic ≠ none := by
  apply panic_addRoute_of_not_valid
  rintro ⟨_, _, _, hno⟩
  exact hno hdouble

/-- Witness of C5 at the pattern `/a//b`. -/
theorem C5_addRoute_panics_on_double_slash_witness :
    (newRouter.addRoute "GET".toList "/a//b".toList (some 1)).panic ≠ none :=
  C5_addRoute_panics_on_double_slash newRouter "GET".toList "/a//b".toList (some 1)
    (by decide)

/-! ## The trie after a list of registrations -/

theorem holds_newRouter : Holds [] newRouter := by
  constructor
  · intro m ks
    simp [router.nodeAt, newRouter, mapGet]
  · intro m ks
    simp [router.handlerAt, router.nodeAt, newRouter, mapGet]

theorem tail_pathSegment_eq_iff (p q : GoString) :
    (pathSegment p).tail = (pathSegment q).tail ↔ pathSegment p = pathSegment q := by
  constructor
  · intro h
    rw [pathSegment_eq_cons_tail p, pathSegment_eq_cons_tail q, h]
  · intro h
    rw [h]

theorem holds_addRoute (done : List Route) (r : router) (x : Route)
    (hr : Holds done r) (hvalid : ValidPattern x.path) (hh : x.handler ≠ none)
    (hfree : ∀ d ∈ done, ¬ d.conflicts x) :
    (r.addRoute x.method x.path x.handler).panic = none ∧
      Holds (done ++ [x]) (r.addRoute x.method x.path x.handler).state := by
  have hv := (checkPath_eq_none_iff x.path).2 hvalid
  have hok : (r.addRoute x.method x.path x.handler).panic = none := by
    refine (router.panic_addRoute_eq_none_iff r _ _ _).2 ⟨hv, ?_⟩
    by_contra hne
    obtain ⟨d, hd, hm, hs⟩ := (hr.2 _ _).1 hne
    exact hfree d hd ⟨hm, (tail_pathSegment_eq_iff _ _).1 hs⟩
  refine ⟨hok, ?_, ?_⟩
  · intro m ks
    rw [router.nodeAt_addRoute r _ _ _ hv, Bool.or_eq_true, hr.1, Bool.and_eq_true,
      decide_eq_true_eq, List.isPrefixOf_iff_prefix]
    constructor
    · rintro (⟨d, hd, hdm, hdk⟩ | ⟨hm, hk⟩)
      · exact ⟨d, List.mem_append_left _ hd, hdm, hdk⟩
      · exact ⟨x, by simp, hm.symm, hk⟩
    · rintro ⟨d, hd, hdm, hdk⟩
      rcases List.mem_append.1 hd with hd | hd
      · exact Or.inl ⟨d, hd, hdm, hdk⟩
      · have hdx : d = x := by simpa using hd
        subst hdx
        exact Or.inr ⟨hdm.symm, hdk⟩
  · intro m ks
    rw [router.handlerAt_addRoute r _ _ _ hok]
    constructor
    · intro hne
      by_cases hc : m = x.method ∧ ks = (pathSegment x.path).tail
      · exact ⟨x, by simp, hc.1.symm, hc.2.symm⟩
      · rw [if_neg hc] at hne
        obtain ⟨d, hd, hdm, hdk⟩ := (hr.2 _ _).1 hne
        exact ⟨d, List.mem_append_left _ hd, hdm, hdk⟩
    · rintro ⟨d, hd, hdm, hdk⟩
      by_cases hc : m = x.method ∧ ks = (pathSegment x.path).tail
      · rw [if_pos hc]
        exact hh
      · rw [if_neg hc]
        rcases List.mem_append.1 hd with hd | hd
        · exact (hr.2 _ _).2 ⟨d, hd, hdm, hdk⟩
        · have hdx : d = x := by simpa using hd
          subst hdx
          exact absurd ⟨hdm.symm, hdk.symm⟩ hc

theorem holds_registerAll (regs : List Route) (done : List Route) (r : router)
    (hr : Holds done r) (hvalid : ∀ x ∈ regs, ValidPattern x.path)
    (hh : ∀ x ∈ regs, x.handler ≠ none)
    (hpair : regs.Pairwise (fun a b => ¬ a.conflicts b))
    (hfree : ∀ d ∈ done, ∀ x ∈ regs, ¬ d.conflicts x) :
    (registerAll r regs).panic = none ∧ Holds (done ++ regs) (registerAll r regs).state := by
  induction regs generalizing done r with
  | nil => simpa [registerAll] using hr
  | cons x rest ih =>
    obtain ⟨hok, hnext⟩ := holds_addRoute done r x hr (hvalid x (by simp)) (hh x (by simp))
      (fun d hd => hfree d hd x (by simp))
    rw [List.pairwise_cons] at hpair
    have hstep := ih (done ++ [x]) (r.addRoute x.method x.path x.handler).state hnext
      (fun y hy => hvalid y (List.mem_cons_of_mem _ hy))
      (fun y hy => hh y (List.mem_cons_of_mem _ hy)) hpair.2
      (by
        intro d hd y hy
        rcases List.mem_append.1 hd with hd | hd
        · exact hfree d hd y (List.mem_cons_of_mem _ hy)
        · have hdx : d = x := by simpa using hd
          subst hdx
          exact hpair.1 y hy)
    simp only [registerAll, hok]
    simpa using hstep

/-- Claim C6. After the registration on a fresh router of a list of routes with valid
patterns and non-nil handlers, no two of which conflict, no call has panicked; the tree
of each method has a node at a list of keys exactly when that list is a prefix of the
segments of a pattern registered for the method, and no other node (no map holds a key
twice, and `starChild`, `paramChild` and `regChild` are `nil` everywhere); and a node
carries a non-nil handler exactly when its list of keys is the segments of a pattern
registered for the method. -/
theorem C6_trie_is_prefix_closure (regs : List Route)
    (hvalid : ∀ x ∈ regs, ValidPattern x.path) (hh : ∀ x ∈ regs, x.handler ≠ none)
    (hpair : regs.Pairwise (fun a b => ¬ a.conflicts b)) :
    (registerAll newRouter regs).panic = none ∧
      (∀ m ks, ((registerAll newRouter regs).state.nodeAt m ks).isSome = true ↔
        ∃ x ∈ regs, x.method = m ∧ ks <+: (pathSegment x.path).tail) ∧
      (∀ m ks n, (registerAll newRouter regs).state.nodeAt m ks = some n →
        (n.handler ≠ none ↔ ∃ x ∈ regs, x.method = m ∧ (pathSegment x.path).tail = ks)) ∧
      (∀ m ks n, (registerAll newRouter regs).state.nodeAt m ks = some n → n.Plain) ∧
      ((registerAll newRouter regs).state.trees.map Prod.fst).Nodup := by
  obtain ⟨hok, hnodes, hhandlers⟩ :=
    holds_registerAll regs [] newRouter holds_newRouter hvalid hh hpair (by simp)
  simp only [List.nil_append] at hnodes hhandlers
  have hplain := plain_registerAll regs newRouter
    (by intro m ks f hf; simp [router.nodeAt, newRouter, mapGet] at hf) List.nodup_nil
  refine ⟨hok, hnodes, ?_, hplain.1, hplain.2⟩
  intro m ks n hn
  rw [← hhandlers m ks, router.handlerAt, hn]
  rfl

/-- Witness of C6: the routes of `TestRouter_addRoute`. -/
theorem C6_trie_is_prefix_closure_witness :
    (registerAll newRouter testRoutes).panic = none ∧
      (∀ m ks, ((registerAll newRouter testRoutes).state.nodeAt m ks).isSome = true ↔
        ∃ x ∈ testRoutes, x.method = m ∧ ks <+: (pathSegment x.path).tail) ∧
      (∀ m ks n, (registerAll newRouter testRoutes).state.nodeAt m ks = some n →
        (n.handler ≠ none ↔
          ∃ x ∈ testRoutes, x.method = m ∧ (pathSegment x.path).tail = ks)) ∧
      (∀ m ks n, (registerAll newRouter testRoutes).state.nodeAt m ks = some n → n.Plain) ∧
      ((registerAll newRouter testRoutes).state.trees.map Prod.fst).Nodup :=
  C6_trie_is_prefix_closure testRoutes (by decide) (by decide) (by decide)

/-- Claim C7, on the code. For every method and handlers, `addRoute(m, "/a/:id", h1)`
followed by `addRoute(m, "/a/:name", h2)` returns both times: the second call raises no
conflict and stores `:name` beside `:id` as one more key of the `children` map. -/
theorem C7_second_param_name_is_accepted (m : GoString) (h1 h2 : HandleFunc) :
    (newRouter.addRoute m "/a/:id".toList h1).panic = none ∧
      ((newRouter.addRoute m "/a/:id".toList h1).state.addRoute m
        "/a/:name".toList h2).panic = none ∧
      (((newRouter.addRoute m "/a/:id".toList h1).state.addRoute m
        "/a/:name".toList h2).state.nodeAt m ["a".toList, ":id".toList]).isSome = true ∧
      (((newRouter.addRoute m "/a/:id".toList h1).state.addRoute m
        "/a/:name".toList h2).state.nodeAt m ["a".toList, ":name".toList]).isSome = true := by
  have hv1 : checkPath "/a/:id".toList = none := by decide
  have hv2 : checkPath "/a/:name".toList = none := by decide
  have hs1 : (pathSegment "/a/:id".toList).tail = ["a".toList, ":id".toList] := by decide
  have hs2 : (pathSegment "/a/:name".toList).tail = ["a".toList, ":name".toList] := by decide
  have hok1 : (newRouter.addRoute m "/a/:id".toList h1).panic = none :=
    (router.panic_addRoute_eq_none_iff _ _ _ _).2 ⟨hv1, rfl⟩
  have hok2 : ((newRouter.addRoute m "/a/:id".toList h1).state.addRoute m
      "/a/:name".toList h2).panic = none := by
    refine (router.panic_addRoute_eq_none_iff _ _ _ _).2 ⟨hv2, ?_⟩
    rw [router.handlerAt_addRoute _ _ _ _ hok1, hs1, hs2, if_neg (fun hc => absurd hc.2 (by decide))]
    rfl
  refine ⟨hok1, hok2, ?_, ?_⟩
  · rw [router.nodeAt_addRoute _ _ _ _ hv2, router.nodeAt_addRoute _ _ _ _ hv1, hs1, hs2]
    simp
  · rw [router.nodeAt_addRoute _ _ _ _ hv2, hs2]
    simp

/-- Claim C8, on the code. For every method and handlers, `addRoute(m, "/a/:id", h1)`
followed by `addRoute(m, "/a/*", h2)` returns both times, and so do the same two calls
in the opposite order: no conflict between a wildcard and a parameter is raised. -/
theorem C8_wildcard_beside_param_is_accepted (m : GoString) (h1 h2 : HandleFunc) :
    ((newRouter.addRoute m "/a/:id".toList h1).panic = none ∧
      ((newRouter.addRoute m "/a/:id".toList h1).state.addRoute m
        "/a/*".toList h2).panic = none) ∧
      ((newRouter.addRoute m "/a/*".toList h1).panic = none ∧
        ((newRouter.addRoute m "/a/*".toList h1).state.addRoute m
          "/a/:id".toList h2).panic = none) := by
  have hv1 : checkPath "/a/:id".toList = none := by decide
  have hv2 : checkPath "/a/*".toList = none := by decide
  have hs1 : (pathSegment "/a/:id".toList).tail = ["a".toList, ":id".toList] := by decide
  have hs2 : (pathSegment "/a/*".toList).tail = ["a".toList, "*".toList] := by decide
  have hok1 : (newRouter.addRoute m "/a/:id".toList h1).panic = none :=
    (router.panic_addRoute_eq_none_iff _ _ _ _).2 ⟨hv1, rfl⟩
  have hok2 : (newRouter.addRoute m "/a/*".toList h1).panic = none :=
    (router.panic_addRoute_eq_none_iff _ _ _ _).2 ⟨hv2, rfl⟩
  refine ⟨⟨hok1, ?_⟩, hok2, ?_⟩
  · refine (router.panic_addRoute_eq_none_iff _ _ _ _).2 ⟨hv2, ?_⟩
    rw [router.handlerAt_addRoute _ _ _ _ hok1, hs1, hs2, if_neg (fun hc => absurd hc.2 (by decide))]
    rfl
  · refine (router.panic_addRoute_eq_none_iff _ _ _ _).2 ⟨hv1, ?_⟩
    rw [router.handlerAt_addRoute _ _ _ _ hok2, hs1, hs2, if_neg (fun hc => absurd hc.2 (by decide))]
    rfl

/-- Claim C9, on the code. For every node `n` and segment `s`, whatever the kind of `s`,
`childOrCreate(s)` returns the node held under the key `s` of the `children` map of `n`,
and leaves `starChild`, `paramChild`, `regChild`, `paramName` and `regExpr` of `n` as they
were; the node it creates has an empty `paramName` and no `regExpr`. -/
theorem C9_childOrCreate_uses_children_only (n : node) (s : GoString) :
    (n.childOrCreate s).1.childrenGet s = some (n.childOrCreate s).2 ∧
      (n.childOrCreate s).1.starChild = n.starChild ∧
      (n.childOrCreate s).1.paramChild = n.paramChild ∧
      (n.childOrCreate s).1.regChild = n.regChild ∧
      (n.childOrCreate s).1.paramName = n.paramName ∧
      (n.childOrCreate s).1.regExpr = n.regExpr ∧
      (n.childrenGet s = none →
        (n.childOrCreate s).2.paramName = [] ∧ (n.childOrCreate s).2.regExpr = none) := by
  rw [node.childOrCreate_fst, node.childOrCreate_snd]
  refine ⟨by simp, by simp [node.storeChild], by simp [node.storeChild],
    by simp [node.storeChild], by simp [node.storeChild], by simp [node.storeChild], ?_⟩
  intro hnone
  simp [node.childFor, hnone, node.newChild, node.paramName, node.regExpr]

/-- The wildcard segment on a new root: it becomes the key `*` of `children`, and
`starChild` stays `nil`. -/
theorem C9_childOrCreate_star_on_root :
    (newRootNode.childOrCreate "*".toList).1.starChild = none ∧
      ((newRootNode.childOrCreate "*".toList).1.childrenGet "*".toList).isSome = true ∧
      (newRootNode.childOrCreate ":id".toList).1.paramChild = none ∧
      ((newRootNode.childOrCreate ":id".toList).1.childrenGet ":id".toList).isSome = true :=
  ⟨rfl, by decide, rfl, by decide⟩

/-- Claim C10, on the code. For every router, method and path, `findRoute` panics with
`implement me`: it returns neither a node nor a flag. -/
theorem C10_findRoute_panics (r : router) (m q : GoString) :
    r.findRoute m q = Except.error "implement me".toList := rfl

/-- The lookup of a registered static pattern panics. -/
theorem C10_findRoute_after_addRoute :
    (newRouter.addRoute "GET".toList "/order/detail".toList (some 1)).panic = none ∧
      (newRouter.addRoute "GET".toList "/order/detail".toList (some 1)).state.findRoute
        "GET".toList "/order/detail".toList = Except.error "implement me".toList :=
  ⟨by decide, rfl⟩

/-! ## Lookup -/

/-- Claim C11, on the code. For every router, method and path, `findRoute` does not
return: it panics with `implement me`, also when the router has no tree for the method. -/
theorem C11_findRoute_never_returns (r : router) (m q : GoString) :
    (∀ res, r.findRoute m q ≠ Except.ok res) ∧
      (mapGet r.trees m = none → r.findRoute m q = Except.error "implement me".toList) ∧
      newRouter.findRoute m q = Except.error "implement me".toList :=
  ⟨fun _ hres => (by cases hres), fun _ => rfl, rfl⟩

/-- Claim C12, on the code. With `/user/123` and `/user/:id` both registered for a method,
which both calls of `addRoute` accept, `findRoute` of `/user/123` panics with
`implement me`: it returns no node. -/
theorem C12_findRoute_static_and_param_panics (m : GoString) (hs hp : HandleFunc) :
    (newRouter.addRoute m "/user/123".toList hs).panic = none ∧
      ((newRouter.addRoute m "/user/123".toList hs).state.addRoute m
        "/user/:id".toList hp).panic = none ∧
      ((newRouter.addRoute m "/user/123".toList hs).state.addRoute m
        "/user/:id".toList hp).state.findRoute m "/user/123".toList =
        Except.error "implement me".toList := by
  have hv1 : checkPath "/user/123".toList = none := by decide
  have hv2 : checkPath "/user/:id".toList = none := by decide
  have hs1 : (pathSegment "/user/123".toList).tail = ["user".toList, "123".toList] := by
    decide
  have hs2 : (pathSegment "/user/:id".toList).tail = ["user".toList, ":id".toList] := by
    decide
  have hok1 : (newRouter.addRoute m "/user/123".toList hs).panic = none :=
    (router.panic_addRoute_eq_none_iff _ _ _ _).2 ⟨hv1, rfl⟩
  refine ⟨hok1, ?_, rfl⟩
  refine (router.panic_addRoute_eq_none_iff _ _ _ _).2 ⟨hv2, ?_⟩
  rw [router.handlerAt_addRoute _ _ _ _ hok1, hs1, hs2,
    if_neg (fun hc => absurd hc.2 (by decide))]
  rfl

/-! ## Path parameters -/

theorem matchInfo.pathParams_addValue (mi : matchInfo) (k v : GoString) :
    (mi.addValue k v).pathParams = some (mapSet (mi.pathParams.getD []) k v) := by
  unfold matchInfo.addValue
  cases hp : mi.pathParams with
  | none => simp [mapSet]
  | some params => simp [hp]

/-- Claim C14. For every `matchInfo`, also one whose `pathParams` is `nil`, after
`addValue(k, v1)` then `addValue(k, v2)` the map binds `k` to `v2`; and `addValue(k, v)`
binds `k` to `v` and leaves the binding of every other key as it was. -/
theorem C14_addValue_overwrites (mi : matchInfo) (k v1 v2 : GoString) :
    ((mi.addValue k v1).addValue k v2).param k = some v2 ∧
      (mi.addValue k v1).param k = some v1 ∧
      (∀ k', k' ≠ k → (mi.addValue k v1).param k' = mi.param k') ∧
      (⟨none, none⟩ : matchInfo).addValue k v1 = ⟨none, some [(k, v1)]⟩ := by
  refine ⟨?_, ?_, ?_, by simp [matchInfo.addValue, mapSet]⟩
  · simp [matchInfo.param, matchInfo.pathParams_addValue, mapGet_mapSet_same]
  · simp [matchInfo.param, matchInfo.pathParams_addValue, mapGet_mapSet_same]
  · intro k' hne
    simp only [matchInfo.param, matchInfo.pathParams_addValue]
    cases hp : mi.pathParams with
    | none => simp [mapSet, mapGet, Ne.symm hne]
    | some params => simp [mapGet_mapSet_other _ _ _ _ hne]

/-- Witness of C14: `id` bound to `123`, then to `456`, beside `name`. -/
theorem C14_addValue_overwrites_witness :
    (((⟨none, some [("name".toList, "tom".toList)]⟩ : matchInfo).addValue "id".toList
        "123".toList).addValue "id".toList "456".toList).param "id".toList =
        some "456".toList ∧
      ((⟨none, some [("name".toList, "tom".toList)]⟩ : matchInfo).addValue "id".toList
        "123".toList).param "name".toList = some "tom".toList :=
  ⟨(C14_addValue_overwrites ⟨none, some [("name".toList, "tom".toList)]⟩ "id".toList
      "123".toList "456".toList).1,
    by decide⟩

/-! ## The segments of a path -/

theorem trimSpace_eq_nil_iff (s : GoString) :
    TrimSpace s = [] ↔ ∀ c ∈ s, IsSpace c = true := by
  unfold TrimSpace
  rw [List.reverse_eq_nil_iff, List.dropWhile_eq_nil_iff]
  constructor
  · intro hall
    have hdrop : s.dropWhile IsSpace = [] := by
      cases hd : s.dropWhile IsSpace with
      | nil => rfl
      | cons a rest =>
        have hne : s.dropWhile IsSpace ≠ [] := by simp [hd]
        have hnot := List.head_dropWhile_not IsSpace s hne
        have hmem : (s.dropWhile IsSpace).head hne ∈ (s.dropWhile IsSpace).reverse :=
          List.mem_reverse.2 (List.head_mem hne)
        exact absurd (hall _ hmem) (by simpa using hnot)
    exact List.dropWhile_eq_nil_iff.1 hdrop
  · intro hnil
    rw [List.dropWhile_eq_nil_iff.2 hnil]
    simp

theorem len_trimSpace_eq_zero_iff (s : GoString) :
    len (TrimSpace s) = 0 ↔ s.all IsSpace = true := by
  rw [len_eq_zero_iff, trimSpace_eq_nil_iff, List.all_eq_true]

/-- Claim C17, as stated, fails at `/a/ /b`: the piece of one blank is not empty, yet
`pathSegment` drops it. -/
theorem C17_blank_piece_is_dropped :
    pathSegment "/a/ /b".toList = ["/".toList, "a".toList, "b".toList] ∧
      nonEmptySegments "/a/ /b".toList = ["/".toList, "a".toList, " ".toList, "b".toList] ∧
      pathSegment "/a/ /b".toList ≠ nonEmptySegments "/a/ /b".toList := by
  decide

/-- Claim C17, amended. For every path, `pathSegment(path)` is the root marker `/` followed
by exactly the pieces of the path split on `/` that hold a character that is not white
space, in their order; so `/a/b/c` gives `[/, a, b, c]` and `/` gives `[/]`. -/
theorem C17_pathSegment_keeps_non_blank_pieces (path : GoString) :
    pathSegment path = ['/'] :: (Split path '/').filter (fun piece => !piece.all IsSpace) ∧
      pathSegment "/a/b/c".toList = ["/".toList, "a".toList, "b".toList, "c".toList] ∧
      pathSegment "/".toList = ["/".toList] := by
  refine ⟨?_, by decide, by decide⟩
  rw [pathSegment_eq]
  congr 1
  apply List.filter_congr
  intro piece _
  by_cases hall : piece.all IsSpace = true
  · simp [hall, (len_trimSpace_eq_zero_iff piece).2 hall]
  · have hlen : ¬ len (TrimSpace piece) = 0 := fun h => hall ((len_trimSpace_eq_zero_iff piece).1 h)
    simp [hall, hlen]

/-! ## Paths and keys -/

/-- Registration keeps, below its start, the `path` of every node equal to the key that
leads to it. -/
theorem node.keyed_addRouteFrom (n : node) (segs : List GoString) (h : HandleFunc)
    (hn : ∀ ks f, n.descend ks = some f → (n.path :: ks).getLast? = some f.path) :
    ∀ ks f, (n.addRouteFrom segs h).1.descend ks = some f →
      (n.path :: ks).getLast? = some f.path := by
  induction segs generalizing n with
  | nil =>
    intro ks f hf
    rw [node.addRouteFrom_nil] at hf
    by_cases hh : n.handler = none
    · simp only [hh, ne_eq, not_true_eq_false, if_false] at hf
      cases ks with
      | nil =>
        simp only [node.descend_nil, Option.some.injEq] at hf
        rw [← hf]
        simp
      | cons k rest =>
        rw [node.descend_cons, node.childrenGet_setHandler, ← node.descend_cons] at hf
        exact hn _ f hf
    · simp only [ne_eq, hh, not_false_eq_true, if_true] at hf
      exact hn ks f hf
  | cons seg rest ih =>
    intro ks f hf
    rw [node.addRouteFrom_cons] at hf
    simp only at hf
    cases ks with
    | nil =>
      simp only [node.descend_nil, Option.some.injEq] at hf
      rw [← hf]
      simp
    | cons k ks' =>
      by_cases hk : k = seg
      · subst hk
        rw [node.descend_cons, node.childrenGet_storeChild_same] at hf
        have hpath : (n.childFor k).path = k := by
          unfold node.childFor
          cases hget : n.childrenGet k with
          | none => rfl
          | some c =>
            have hc := hn [k] c (by rw [node.descend_cons, hget]; rfl)
            simpa using hc.symm
        have hbelow : ∀ js g, (n.childFor k).descend js = some g →
            ((n.childFor k).path :: js).getLast? = some g.path := by
          intro js g hg
          rw [hpath]
          unfold node.childFor at hg
          cases hget : n.childrenGet k with
          | none =>
            rw [hget, Option.getD_none, node.descend_newChild] at hg
            by_cases hjs : js = []
            · simp only [hjs, if_true, Option.some.injEq] at hg
              rw [← hg, hjs]
              rfl
            · simp [hjs] at hg
          | some c =>
            rw [hget, Option.getD_some] at hg
            have hc := hn (k :: js) g (by rw [node.descend_cons, hget]; exact hg)
            rw [List.getLast?_cons_cons] at hc
            exact hc
        have hstep := ih (n.childFor k) hbelow ks' f hf
        rw [hpath] at hstep
        rw [List.getLast?_cons_cons]
        exact hstep
      · rw [node.descend_cons, node.childrenGet_storeChild_other _ _ _ _ hk,
          ← node.descend_cons] at hf
        exact hn _ f hf

/-- A call of `addRoute`, panic or not, keeps the `path` of every node of the router equal
to the key that leads to it, and `/` at the roots. -/
theorem router.keyed_addRoute (r : router) (m p : GoString) (h : HandleFunc)
    (hr : ∀ m' ks f, r.nodeAt m' ks = some f → (['/'] :: ks).getLast? = some f.path) :
    ∀ m' ks f, (r.addRoute m p h).state.nodeAt m' ks = some f →
      (['/'] :: ks).getLast? = some f.path := by
  cases hv : checkPath p with
  | some msg =>
    rw [router.addRoute_of_checkPath_some r m p h msg hv]
    exact hr
  | none =>
    intro m' ks f hf
    unfold router.nodeAt at hf
    rw [router.mapGet_addRoute r m p h hv m'] at hf
    by_cases hmm : m' = m
    · subst hmm
      simp only [if_true, Option.some_bind] at hf
      have hpath : (r.rootFor m').path = ['/'] := by
        unfold router.rootFor
        cases hget : mapGet r.trees m' with
        | none => rfl
        | some root =>
          have hroot := hr m' [] root (by simp [router.nodeAt, hget])
          simpa using hroot.symm
      have hbelow : ∀ js g, (r.rootFor m').descend js = some g →
          ((r.rootFor m').path :: js).getLast? = some g.path := by
        intro js g hg
        rw [hpath]
        unfold router.rootFor at hg
        cases hget : mapGet r.trees m' with
        | none =>
          rw [hget, Option.getD_none, router.newRootNode_eq, node.descend_newChild] at hg
          by_cases hjs : js = []
          · simp only [hjs, if_true, Option.some.injEq] at hg
            rw [← hg, hjs]
            rfl
          · simp [hjs] at hg
        | some root =>
          rw [hget, Option.getD_some] at hg
          exact hr m' js g (by simp only [router.nodeAt, hget, Option.some_bind]; exact hg)
      have hstep := node.keyed_addRouteFrom (r.rootFor m') _ h hbelow ks f hf
      rw [hpath] at hstep
      exact hstep
    · simp only [hmm, if_false] at hf
      exact hr m' ks f hf

theorem keyed_of_reachable (r : router) (hr : Reachable r) :
    ∀ m ks f, r.nodeAt m ks = some f → (['/'] :: ks).getLast? = some f.path := by
  induction hr with
  | fresh =>
    intro m ks f hf
    simp [router.nodeAt, newRouter, mapGet] at hf
  | added r0 method path handler _ _ ih =>
    exact router.keyed_addRoute r0 method path handler ih

/-- Claim C18. In every state reachable from `newRouter()` by calls of `addRoute` that
return, the root of every method tree has `path` `/`, and the `path` of every other node
is the key under which the `children` map of its parent holds it. -/
theorem C18_paths_are_keys (r : router) (hr : Reachable r) :
    (∀ m root, mapGet r.trees m = some root → root.path = ['/']) ∧
      (∀ m ks k parent child, r.nodeAt m ks = some parent →
        parent.childrenGet k = some child → child.path = k) := by
  have hkeyed := keyed_of_reachable r hr
  constructor
  · intro m root hget
    have hroot := hkeyed m [] root (by simp [router.nodeAt, hget])
    simpa using hroot.symm
  · intro m ks k parent child hparent hchild
    have hnode : r.nodeAt m (ks ++ [k]) = some child := by
      unfold router.nodeAt at hparent ⊢
      cases hget : mapGet r.trees m with
      | none => simp [hget] at hparent
      | some root =>
        simp only [hget, Option.some_bind] at hparent ⊢
        clear hget
        induction ks generalizing root with
        | nil =>
          simp only [node.descend_nil, Option.some.injEq] at hparent
          rw [hparent, List.nil_append, node.descend_cons, hchild]
          rfl
        | cons j js ih =>
          rw [node.descend_cons] at hparent
          rw [List.cons_append, node.descend_cons]
          cases hj : root.childrenGet j with
          | none => simp [hj] at hparent
          | some c =>
            simp only [hj, Option.some_bind] at hparent ⊢
            exact ih c hparent
    have hlast := hkeyed m (ks ++ [k]) child hnode
    rw [List.getLast?_cons, List.getLast?_concat] at hlast
    simpa using hlast.symm

/-- Witness of C18: the router after `GET /user/home`. -/
theorem C18_paths_are_keys_witness :
    (∀ m root,
      mapGet (newRouter.addRoute "GET".toList "/user/home".toList (some 1)).state.trees m =
        some root → root.path = ['/']) ∧
      (∀ m ks k parent child,
        (newRouter.addRoute "GET".toList "/user/home".toList (some 1)).state.nodeAt m ks =
          some parent →
        parent.childrenGet k = some child → child.path = k) :=
  C18_paths_are_keys _
    (Reachable.added newRouter "GET".toList "/user/home".toList (some 1) Reachable.fresh
      (by decide))

/-! ## Frames -/

/-- Claim C19. For all methods `m'` other than `m`, a call `addRoute(m, p, h)`, whether it
returns or panics, leaves the tree held under `m'` as it was: the same presence, the same
nodes and the same handlers. -/
theorem C19_addRoute_other_method_untouched (r : router) (m m' p : GoString)
    (h : HandleFunc) (hne : m' ≠ m) :
    mapGet (r.addRoute m p h).state.trees m' = mapGet r.trees m' ∧
      (∀ ks, (r.addRoute m p h).state.nodeAt m' ks = r.nodeAt m' ks) ∧
      (∀ ks, (r.addRoute m p h).state.handlerAt m' ks = r.handlerAt m' ks) := by
  have hget : mapGet (r.addRoute m p h).state.trees m' = mapGet r.trees m' := by
    cases hv : checkPath p with
    | some msg => rw [router.addRoute_of_checkPath_some r m p h msg hv]
    | none => rw [router.mapGet_addRoute r m p h hv m', if_neg hne]
  refine ⟨hget, ?_, ?_⟩
  · intro ks
    simp only [router.nodeAt, hget]
  · intro ks
    simp only [router.handlerAt, router.nodeAt, hget]

/-- Witness of C19: `GET /order/detail` on a router that holds `POST /login`. -/
theorem C19_addRoute_other_method_untouched_witness :
    mapGet ((newRouter.addRoute "POST".toList "/login".toList (some 1)).state.addRoute
        "GET".toList "/order/detail".toList (some 2)).state.trees "POST".toList =
        mapGet (newRouter.addRoute "POST".toList "/login".toList (some 1)).state.trees
          "POST".toList ∧
      (newRouter.addRoute "GET".toList "/order/detail".toList (some 2)).state.nodeAt
        "POST".toList [] = none :=
  ⟨(C19_addRoute_other_method_untouched
      (newRouter.addRoute "POST".toList "/login".toList (some 1)).state
      "GET".toList "POST".toList "/order/detail".toList (some 2) (by decide)).1,
    rfl⟩

/-- Claim C20. Whenever `addRoute(m, p, h)` panics, on a validation failure or on a route
conflict, the router is left as it was before the call: no method root was added, no
node was created and no handler was changed. -/
theorem C20_addRoute_panic_leaves_router (r : router) (m p : GoString) (h : HandleFunc)
    (hpanic : (r.addRoute m p h).panic ≠ none) : (r.addRoute m p h).state = r := by
  cases hv : checkPath p with
  | some msg => rw [router.addRoute_of_checkPath_some r m p h msg hv]
  | none =>
    rw [router.addRoute_of_checkPath_none r m p h hv] at hpanic ⊢
    simp only at hpanic ⊢
    have hcon : ((r.rootFor m).addRouteFrom (pathSegment p).tail h).2 = true := by
      cases hb : ((r.rootFor m).addRouteFrom (pathSegment p).tail h).2 with
      | true => rfl
      | false => simp [hb] at hpanic
    have hsame := node.addRouteFrom_of_conflict _ _ _ hcon
    have hat := (node.addRouteFrom_conflict _ _ h).1 hcon
    rw [router.handlerAt_rootFor] at hat
    have hpresent : mapGet r.trees m = some (r.rootFor m) := by
      unfold router.rootFor
      cases hget : mapGet r.trees m with
      | none =>
        rw [router.handlerAt, router.nodeAt, hget] at hat
        exact absurd rfl hat
      | some root => rfl
    rw [hsame, router.initRoot_of_mapGet r m _ hpresent, mapSet_of_mapGet _ _ _ hpresent]

/-- Witness of C20: the second registration of `GET /a/b/c`, and a pattern without its
leading `/`. -/
theorem C20_addRoute_panic_leaves_router_witness :
    ((newRouter.addRoute "GET".toList "/a/b/c".toList (some 1)).state.addRoute
        "GET".toList "/a/b/c".toList (some 2)).state =
        (newRouter.addRoute "GET".toList "/a/b/c".toList (some 1)).state ∧
      (newRouter.addRoute "GET".toList "login".toList (some 1)).state = newRouter :=
  ⟨C20_addRoute_panic_leaves_router
      (newRouter.addRoute "GET".toList "/a/b/c".toList (some 1)).state
      "GET".toList "/a/b/c".toList (some 2) (by decide),
    rfl⟩

end Web

namespace Orm

open Web

/-! ## What the loops of `Build` write -/

theorem commaSep_cons (part : GoString) (rest : List GoString) :
    commaSep (part :: rest) = part ++ (rest.map (fun next => ',' :: next)).flatten := by
  induction rest generalizing part with
  | nil => simp [commaSep]
  | cons next rest ih => simp [commaSep, ih]

theorem writeColumns_pos (b : builder) (fields : List Field) (idx : Nat) (hidx : 0 < idx) :
    writeColumns b fields idx =
      ⟨b.sb ++ (fields.map (fun f => ',' :: quoted b.quoter f.ColName)).flatten,
        b.args, b.model, b.quoter⟩ := by
  induction fields generalizing b idx with
  | nil => simp [writeColumns]
  | cons field rest ih =>
    rw [writeColumns, if_pos hidx, ih _ _ (Nat.succ_pos idx)]
    simp [builder.quote, builder.WriteByte, builder.WriteString, quoted]

theorem writeColumns_zero (b : builder) (fields : List Field) :
    writeColumns b fields 0 =
      ⟨b.sb ++ commaSep (fields.map (fun f => quoted b.quoter f.ColName)),
        b.args, b.model, b.quoter⟩ := by
  cases fields with
  | nil => simp [writeColumns, commaSep]
  | cons field rest =>
    rw [writeColumns, if_neg (Nat.lt_irrefl 0), writeColumns_pos _ _ _ Nat.one_pos,
      List.map_cons, commaSep_cons]
    simp [builder.quote, builder.WriteByte, builder.WriteString, quoted, List.map_map,
      Function.comp_def]

theorem writeRow_pos (val : GoString → Except Error GoAny) (g : Field → GoAny)
    (b : builder) (fields : List Field) (idx : Nat) (a : List GoAny) (hidx : 0 < idx)
    (hargs : b.args = some a) (hval : ∀ f ∈ fields, val f.GoName = Except.ok (g f)) :
    writeRow val b fields idx =
      (⟨b.sb ++ (fields.map (fun _ => [',', '?'])).flatten, some (a ++ fields.map g),
        b.model, b.quoter⟩, none) := by
  induction fields generalizing b idx a with
  | nil =>
    cases b
    simp only at hargs
    simp [writeRow, hargs]
  | cons field rest ih =>
    have hfield := hval field (by simp)
    have hrest : ∀ f ∈ rest, val f.GoName = Except.ok (g f) :=
      fun f hf => hval f (List.mem_cons_of_mem _ hf)
    rw [writeRow, hfield]
    simp only [if_pos hidx]
    rw [ih _ (idx + 1) (a ++ [g field]) (Nat.succ_pos idx)
      (by simp [builder.addArg, builder.WriteByte, hargs]) hrest]
    simp [builder.addArg, builder.WriteByte, hargs]

theorem writeRow_zero (val : GoString → Except Error GoAny) (g : Field → GoAny)
    (b : builder) (fields : List Field) (a : List GoAny)
    (hargs : b.args = some a) (hval : ∀ f ∈ fields, val f.GoName = Except.ok (g f)) :
    writeRow val b fields 0 =
      (⟨b.sb ++ commaSep (List.replicate fields.length ['?']), some (a ++ fields.map g),
        b.model, b.quoter⟩, none) := by
  cases fields with
  | nil =>
    cases b
    simp only at hargs
    simp [writeRow, hargs, commaSep]
  | cons field rest =>
    have hfield := hval field (by simp)
    have hrest : ∀ f ∈ rest, val f.GoName = Except.ok (g f) :=
      fun f hf => hval f (List.mem_cons_of_mem _ hf)
    rw [writeRow, hfield]
    simp only [if_neg (Nat.lt_irrefl 0)]
    rw [writeRow_pos val g _ rest 1 (a ++ [g field]) Nat.one_pos
      (by simp [builder.addArg, builder.WriteByte, hargs]) hrest]
    simp [builder.addArg, builder.WriteByte, hargs, List.replicate_succ, commaSep_cons]

theorem writeRows_pos {T : Type} (creator : T → GoString → Except Error GoAny)
    (val : T → Field → GoAny) (fields : List Field) (b : builder) (rows : List T)
    (j : Nat) (a : List GoAny) (hj : 0 < j) (hargs : b.args = some a)
    (hval : ∀ v ∈ rows, ∀ f ∈ fields, creator v f.GoName = Except.ok (val v f)) :
    writeRows creator fields b rows j =
      (⟨b.sb ++ (rows.map (fun _ =>
          ',' :: (['('] ++ commaSep (List.replicate fields.length ['?']) ++ [')']))).flatten,
        some (a ++ rows.flatMap (fun v => fields.map (val v))), b.model, b.quoter⟩, none) := by
  induction rows generalizing b j a with
  | nil =>
    cases b
    simp only at hargs
    simp [writeRows, hargs]
  | cons v rest ih =>
    have hrow := hval v (by simp)
    have hrest : ∀ w ∈ rest, ∀ f ∈ fields, creator w f.GoName = Except.ok (val w f) :=
      fun w hw => hval w (List.mem_cons_of_mem _ hw)
    rw [writeRows]
    simp only [if_pos hj]
    rw [writeRow_zero (creator v) (val v) _ fields a
      (by simp [builder.WriteByte, hargs]) hrow]
    simp only
    rw [ih _ (j + 1) (a ++ fields.map (val v)) (Nat.succ_pos j)
      (by simp [builder.WriteByte]) hrest]
    simp [builder.WriteByte]

theorem writeRows_zero {T : Type} (creator : T → GoString → Except Error GoAny)
    (val : T → Field → GoAny) (fields : List Field) (b : builder) (rows : List T)
    (a : List GoAny) (hargs : b.args = some a)
    (hval : ∀ v ∈ rows, ∀ f ∈ fields, creator v f.GoName = Except.ok (val v f)) :
    writeRows creator fields b rows 0 =
      (⟨b.sb ++ commaSep (List.replicate rows.length
          (['('] ++ commaSep (List.replicate fields.length ['?']) ++ [')'])),
        some (a ++ rows.flatMap (fun v => fields.map (val v))), b.model, b.quoter⟩, none) := by
  cases rows with
  | nil =>
    cases b
    simp only at hargs
    simp [writeRows, hargs, commaSep]
  | cons v rest =>
    have hrow := hval v (by simp)
    have hrest : ∀ w ∈ rest, ∀ f ∈ fields, creator w f.GoName = Except.ok (val w f) :=
      fun w hw => hval w (List.mem_cons_of_mem _ hw)
    rw [writeRows]
    simp only [if_neg (Nat.lt_irrefl 0)]
    rw [writeRow_zero (creator v) (val v) _ fields a
      (by simp [builder.WriteByte, hargs]) hrow]
    simp only
    rw [writeRows_pos creator val fields _ rest 1 (a ++ fields.map (val v)) Nat.one_pos
      (by simp [builder.WriteByte]) hrest]
    simp [builder.WriteByte, List.replicate_succ, commaSep_cons]

theorem lookupFields_of_namedFields (m : Model) (cols : List GoString) (acc fs : List Field)
    (hnamed : namedFields m cols = some fs) :
    lookupFields m cols acc = Except.ok (acc ++ fs) := by
  induction cols generalizing acc fs with
  | nil =>
    simp only [namedFields, Option.some.injEq] at hnamed
    simp [lookupFields, ← hnamed]
  | cons c rest ih =>
    rw [namedFields] at hnamed
    cases hc : mapGet m.FieldMap c with
    | none => simp [hc] at hnamed
    | some f =>
      cases hr : namedFields m rest with
      | none => simp [hc, hr] at hnamed
      | some fs' =>
        simp only [hc, hr, Option.some.injEq] at hnamed
        rw [lookupFields, hc]
        simp only
        rw [ih _ _ hr, ← hnamed]
        simp

theorem lookupFields_of_firstUnknown (m : Model) (cols : List GoString) (acc : List Field)
    (c : GoString) (hunknown : firstUnknown m cols = some c) :
    lookupFields m cols acc = Except.error (Error.ErrUnknownField c) := by
  induction cols generalizing acc with
  | nil => simp [firstUnknown] at hunknown
  | cons d rest ih =>
    unfold firstUnknown at hunknown ih
    rw [List.find?_cons] at hunknown
    cases hd : mapGet m.FieldMap d with
    | none =>
      simp only [hd, Option.isNone_none, Option.some.injEq] at hunknown
      rw [lookupFields, hd, hunknown]
    | some f =>
      simp only [hd, Option.isNone_some] at hunknown
      rw [lookupFields, hd]
      exact ih _ hunknown

theorem length_flatMap_map {T : Type} (rows : List T) (fields : List Field)
    (val : T → Field → GoAny) :
    (rows.flatMap (fun v => fields.map (val v))).length = rows.length * fields.length := by
  induction rows with
  | nil => simp
  | cons v rest ih => simp [ih, Nat.succ_mul, Nat.add_comm]

/-! ## The claims on `Build` -/

/-- Claim C15. `Build` on an inserter with zero rows (`Values` called with no argument, or
never called) returns the error `ErrInsertZeroRow` and no query, and writes nothing. -/
theorem C15_build_zero_rows {T : Type} (i : Inserter T) (hzero : i.values = []) :
    i.Build = (i, Except.error Error.ErrInsertZeroRow) := by
  unfold Inserter.Build
  rw [hzero]

/-- Witness of C15: `Values()` without argument, the test case `no row`. -/
theorem C15_build_zero_rows_witness :
    ((NewInserter memoryDB).Values []).Build =
      ((NewInserter memoryDB).Values [], Except.error Error.ErrInsertZeroRow) :=
  C15_build_zero_rows ((NewInserter memoryDB).Values []) rfl

/-- Claim C16, as stated, fails when `Columns` names an unknown field: the inserter has two
rows and no upsert clause, not all of its names are known, and its first `Build` returns
the error of the unknown field instead of a statement over all the fields of the model. -/
theorem C16_unknown_column_is_an_error :
    unknownColumnInserter.values.length = 2 ∧
      unknownColumnInserter.onDuplicateKey = none ∧
      unknownColumnInserter.builder.sb = [] ∧
      namedFields testModel unknownColumnInserter.columns = none ∧
      unknownColumnInserter.Build.2 = Except.error (Error.ErrUnknownField "Invalid".toList) ∧
      (∀ q, unknownColumnInserter.Build.2 ≠ Except.ok q) :=
  ⟨rfl, rfl, rfl, rfl, rfl, fun _ hq => (by cases hq)⟩

/-- Claim C16, amended. Take an inserter with at least one row, no upsert clause and nothing
written yet, whose registry yields the model `m`. When the column list is defined (all the
fields of the model in their order when `Columns` names none, the named fields in the order
given when all the names are known) and every listed field of every row can be read, the
first `Build` returns the statement `INSERT INTO`, the quoted table, the quoted columns
between brackets, ` VALUES `, one group of placeholders for each row and a final `;`, and
`Args` holds the values of the listed fields row after row, `r * n` of them. When `Columns`
names an unknown field, `Build` returns the error of the first such name and no query. -/
theorem C16_build_insert_statement {T : Type} (i : Inserter T) (m : Model) (first : T)
    (hrows : i.values.head? = some first) (hupsert : i.onDuplicateKey = none)
    (hfresh : i.builder.sb = []) (hmodel : i.db.r first = Except.ok m) :
    (∀ (fields : List Field) (val : T → Field → GoAny), chosenFields m i.columns = some fields →
      (∀ v ∈ i.values, ∀ f ∈ fields, i.db.creator m v f.GoName = Except.ok (val v f)) →
        i.Build.2 = Except.ok
          ⟨insertSQL i.builder.quoter m.TableName (fields.map Field.ColName) i.values.length,
            some (i.values.flatMap (fun v => fields.map (val v)))⟩ ∧
        (i.values.flatMap (fun v => fields.map (val v))).length =
          i.values.length * fields.length) ∧
      (∀ c, firstUnknown m i.columns = some c →
        i.Build.2 = Except.error (Error.ErrUnknownField c)) := by
  obtain ⟨b, d, rows, db, cols, up⟩ := i
  simp only at hrows hupsert hfresh hmodel ⊢
  cases rows with
  | nil => simp at hrows
  | cons v0 rest =>
    simp only [List.head?_cons, Option.some.injEq] at hrows
    subst hrows hupsert
    constructor
    · intro fields val hchosen hval
      refine ⟨?_, length_flatMap_map _ _ _⟩
      have hsel : (if cols.length > 0 then lookupFields m cols [] else Except.ok m.Fields) =
          Except.ok fields := by
        cases cols with
        | nil =>
          simp only [chosenFields, if_true, Option.some.injEq] at hchosen
          simp [hchosen]
        | cons c cs =>
          simp only [chosenFields, List.cons_ne_nil, if_false] at hchosen
          simp [lookupFields_of_namedFields m _ [] fields hchosen]
      unfold Inserter.Build
      simp only [hmodel, hsel]
      rw [writeColumns_zero]
      rw [writeRows_zero (db.creator m) val fields _ (v0 :: rest) [] rfl hval]
      simp only
      cases b
      simp only at hfresh
      subst hfresh
      simp [builder.WriteByte, builder.WriteString, builder.quote, insertSQL, quoted,
        List.map_map, Function.comp_def]
    · intro c hunknown
      have hne : cols.length > 0 := by
        cases cols with
        | nil => simp [firstUnknown] at hunknown
        | cons c cs => simp
      unfold Inserter.Build
      simp only [hmodel, if_pos hne, lookupFields_of_firstUnknown m cols [] c hunknown]

/-- Witness of C16: the test case `partial columns`, two rows over `Id` and `FirstName`. -/
theorem C16_build_insert_statement_witness :
    partialColumnsInserter.Build.2 = Except.ok
        ⟨"INSERT INTO `test_model`(`id`,`first_name`) VALUES (?,?),(?,?);".toList,
          some [GoAny.int 12, GoAny.str "Tom".toList, GoAny.int 13, GoAny.str "DaMing".toList]⟩ ∧
      firstUnknown testModel unknownColumnInserter.columns = some "Invalid".toList :=
  ⟨((C16_build_insert_statement partialColumnsInserter testModel
      ⟨12, "Tom".toList, 18, "Jerry".toList⟩ rfl rfl rfl rfl).1
      [⟨"id".toList, "Id".toList⟩, ⟨"first_name".toList, "FirstName".toList⟩]
      (fun v f => if f.GoName = "Id".toList then GoAny.int v.Id else GoAny.str v.FirstName)
      rfl (by decide)).1,
    rfl⟩

end Orm

namespace Web

/-! ## Patterns and their segments -/

theorem split_ne_nil (s : GoString) (sep : Char) : Split s sep ≠ [] := by
  cases s with
  | nil => simp [Split]
  | cons c cs =>
    rw [Split]
    split
    · simp
    · split <;> simp

theorem join_cons_of_ne_nil (piece : GoString) (pieces : List GoString) (sep : Char)
    (hne : pieces ≠ []) : Join (piece :: pieces) sep = piece ++ [sep] ++ Join pieces sep := by
  cases pieces with
  | nil => exact absurd rfl hne
  | cons next rest => rfl

/-- Joining the pieces of a split gives the string back. -/
theorem join_split (s : GoString) (sep : Char) : Join (Split s sep) sep = s := by
  induction s with
  | nil => rfl
  | cons c cs ih =>
    rw [Split]
    by_cases hc : c = sep
    · rw [if_pos hc, join_cons_of_ne_nil _ _ _ (split_ne_nil cs sep), ih, hc]
      rfl
    · rw [if_neg hc]
      cases hsplit : Split cs sep with
      | nil => exact absurd hsplit (split_ne_nil cs sep)
      | cons piece pieces =>
        rw [hsplit] at ih
        simp only
        cases pieces with
        | nil =>
          simp only [Join] at ih ⊢
          rw [ih]
        | cons next rest =>
          simp only [Join] at ih ⊢
          rw [← ih]
          simp

theorem head_split_eq_nil (s : GoString) (sep : Char)
    (hhead : (Split s sep).head? = some []) : s = [] ∨ s.head? = some sep := by
  cases s with
  | nil => exact Or.inl rfl
  | cons c cs =>
    right
    rw [Split] at hhead
    by_cases hc : c = sep
    · simp [hc]
    · rw [if_neg hc] at hhead
      cases hsplit : Split cs sep with
      | nil => exact absurd hsplit (split_ne_nil cs sep)
      | cons piece pieces => simp [hsplit] at hhead

theorem nil_mem_tail_split (s : GoString) (sep : Char)
    (hmem : [] ∈ (Split s sep).tail) : s.getLast? = some sep ∨ [sep, sep] <:+: s := by
  induction s with
  | nil => simp [Split] at hmem
  | cons c cs ih =>
    rw [Split] at hmem
    by_cases hc : c = sep
    · rw [if_pos hc, List.tail_cons] at hmem
      subst hc
      cases hsplit : Split cs c with
      | nil => exact absurd hsplit (split_ne_nil cs c)
      | cons piece pieces =>
        rw [hsplit, List.mem_cons] at hmem
        rcases hmem with hpiece | hrest
        · have hhead : (Split cs c).head? = some [] := by rw [hsplit, ← hpiece]; rfl
          rcases head_split_eq_nil cs c hhead with hnil | hstart
          · left
            rw [hnil]
            rfl
          · right
            obtain ⟨rest, hrest⟩ := List.head?_eq_some_iff.1 hstart
            rw [hrest]
            exact ⟨[], rest, rfl⟩
        · have htail : [] ∈ (Split cs c).tail := by rw [hsplit]; exact hrest
          rcases ih htail with hlast | hinfix
          · left
            obtain ⟨front, hfront⟩ := List.getLast?_eq_some_iff.1 hlast
            rw [hfront, ← List.cons_append, List.getLast?_concat]
          · right
            exact List.infix_cons hinfix
    · rw [if_neg hc] at hmem
      cases hsplit : Split cs sep with
      | nil => exact absurd hsplit (split_ne_nil cs sep)
      | cons piece pieces =>
        rw [hsplit] at hmem
        simp only [List.tail_cons] at hmem
        have htail : [] ∈ (Split cs sep).tail := by rw [hsplit]; exact hmem
        rcases ih htail with hlast | hinfix
        · left
          obtain ⟨front, hfront⟩ := List.getLast?_eq_some_iff.1 hlast
          rw [hfront, ← List.cons_append, List.getLast?_concat]
        · right
          exact List.infix_cons hinfix

/-- A valid pattern without blank piece is `/` followed by its segments joined by `/`. -/
theorem pattern_eq_join_segments (p : GoString) (hvalid : ValidPattern p)
    (hblank : NoBlankPiece p) : p = '/' :: Join (pathSegment p).tail '/' := by
  obtain ⟨_, hhead, hlast, hinfix⟩ := hvalid
  obtain ⟨rest, hp⟩ := List.head?_eq_some_iff.1 hhead
  subst hp
  have hsplit : Split ('/' :: rest) '/' = [] :: Split rest '/' := by simp [Split]
  have htail : (pathSegment ('/' :: rest)).tail =
      (Split rest '/').filter (fun seg => !decide (len (TrimSpace seg) = 0)) := by
    rw [pathSegment_eq, hsplit, List.tail_cons, List.filter_cons]
    have hnil : len (TrimSpace []) = 0 := by decide
    simp [hnil]
  rw [htail]
  by_cases hrest : rest = []
  · subst hrest
    decide
  · have hkeep : ∀ piece ∈ Split rest '/',
        (!decide (len (TrimSpace piece) = 0)) = true := by
      intro piece hpiece
      have hne : piece ≠ [] := by
        intro hnil
        subst hnil
        cases hs : Split rest '/' with
        | nil => exact absurd hs (split_ne_nil rest '/')
        | cons x xs =>
          rw [hs, List.mem_cons] at hpiece
          rcases hpiece with hx | hxs
          · have hh : (Split rest '/').head? = some [] := by rw [hs, ← hx]; rfl
            rcases head_split_eq_nil rest '/' hh with hnil | hstart
            · exact hrest hnil
            · obtain ⟨more, hmore⟩ := List.head?_eq_some_iff.1 hstart
              exact hinfix ⟨[], more, by rw [hmore]; rfl⟩
          · have ht : [] ∈ (Split rest '/').tail := by rw [hs]; exact hxs
            rcases nil_mem_tail_split rest '/' ht with hl | hi
            · obtain ⟨front, hfront⟩ := List.getLast?_eq_some_iff.1 hl
              have hroot := hlast (by rw [hfront, ← List.cons_append, List.getLast?_concat])
              simp at hroot
              exact hrest hroot
            · exact hinfix (List.infix_cons hi)
      have hnotblank : ¬ piece.all IsSpace = true := fun hall =>
        hne (hblank piece (by rw [hsplit]; exact List.mem_cons_of_mem _ hpiece) hall)
      have hlen : ¬ len (TrimSpace piece) = 0 := fun h =>
        hnotblank ((len_trimSpace_eq_zero_iff piece).1 h)
      simp [hlen]
    rw [List.filter_eq_self.2 hkeep, join_split]

/-- Claim C21, as stated, fails at `/a` and `/a/ `: both patterns are valid and they differ,
yet the blank piece is dropped, both have the segments `[/, a]`, and the second
registration raises the route conflict. -/
theorem C21_blank_piece_conflicts :
    ValidPattern "/a".toList ∧ ValidPattern "/a/ ".toList ∧ "/a".toList ≠ "/a/ ".toList ∧
      (newRouter.addRoute "GET".toList "/a".toList (some 1)).panic = none ∧
      ((newRouter.addRoute "GET".toList "/a".toList (some 1)).state.addRoute "GET".toList
        "/a/ ".toList (some 2)).panic = some (routeConflict "/a/ ".toList) := by
  decide

/-- Claim C21, amended. A route conflict is raised exactly for a repeated list of segments:
for every method, any two valid patterns `p` and `q` and any handlers of which the first is
non-nil, registering `p` on a fresh router returns, and registering `q` after it returns
exactly when `pathSegment(p)` and `pathSegment(q)` differ; then the two patterns end at
distinct nodes of the trie, each carrying its handler, and otherwise the second call
raises the route conflict of `q`. Two distinct valid patterns none of whose pieces between
two `/` consists of white space only have different segments. -/
theorem C21_conflict_iff_same_segments (m p q : GoString) (h1 h2 : HandleFunc)
    (hp : ValidPattern p) (hq : ValidPattern q) (hh1 : h1 ≠ none) :
    (newRouter.addRoute m p h1).panic = none ∧
      (((newRouter.addRoute m p h1).state.addRoute m q h2).panic = none ↔
        pathSegment p ≠ pathSegment q) ∧
      (pathSegment p ≠ pathSegment q →
        (pathSegment p).tail ≠ (pathSegment q).tail ∧
        ((newRouter.addRoute m p h1).state.addRoute m q h2).state.handlerAt m
          (pathSegment p).tail = h1 ∧
        ((newRouter.addRoute m p h1).state.addRoute m q h2).state.handlerAt m
          (pathSegment q).tail = h2) ∧
      (pathSegment p = pathSegment q →
        ((newRouter.addRoute m p h1).state.addRoute m q h2).panic = some (routeConflict q)) ∧
      (p ≠ q → NoBlankPiece p → NoBlankPiece q → pathSegment p ≠ pathSegment q) := by
  have hvp := (checkPath_eq_none_iff p).2 hp
  have hvq := (checkPath_eq_none_iff q).2 hq
  have hok1 : (newRouter.addRoute m p h1).panic = none :=
    (router.panic_addRoute_eq_none_iff _ _ _ _).2 ⟨hvp, rfl⟩
  have hat : (newRouter.addRoute m p h1).state.handlerAt m (pathSegment q).tail =
      if (pathSegment q).tail = (pathSegment p).tail then h1 else none := by
    rw [router.handlerAt_addRoute _ _ _ _ hok1]
    by_cases hs : (pathSegment q).tail = (pathSegment p).tail
    · rw [if_pos ⟨rfl, hs⟩, if_pos hs]
    · rw [if_neg (fun hc => hs hc.2), if_neg hs]
      rfl
  have hiff : ((newRouter.addRoute m p h1).state.addRoute m q h2).panic = none ↔
      pathSegment p ≠ pathSegment q := by
    rw [router.panic_addRoute_eq_none_iff, hat]
    constructor
    · rintro ⟨_, hnone⟩ heq
      rw [if_pos (by rw [heq])] at hnone
      exact hh1 hnone
    · intro hne
      refine ⟨hvq, ?_⟩
      rw [if_neg (fun hs => hne ((tail_pathSegment_eq_iff p q).1 hs.symm))]
  refine ⟨hok1, hiff, ?_, ?_, ?_⟩
  · intro hne
    have hok2 := hiff.2 hne
    have hsegs : (pathSegment p).tail ≠ (pathSegment q).tail :=
      fun hs => hne ((tail_pathSegment_eq_iff p q).1 hs)
    refine ⟨hsegs, ?_, ?_⟩
    · rw [router.handlerAt_addRoute _ _ _ _ hok2, if_neg (fun hc => hsegs hc.2),
        router.handlerAt_addRoute _ _ _ _ hok1, if_pos ⟨rfl, rfl⟩]
    · rw [router.handlerAt_addRoute _ _ _ _ hok2, if_pos ⟨rfl, rfl⟩]
  · intro heq
    have hpanic : ((newRouter.addRoute m p h1).state.addRoute m q h2).panic ≠ none :=
      fun hnone => (hiff.1 hnone) heq
    rw [router.addRoute_of_checkPath_none _ m q h2 hvq] at hpanic ⊢
    simp only at hpanic ⊢
    cases hb : (((newRouter.addRoute m p h1).state.rootFor m).addRouteFrom
        (pathSegment q).tail h2).2 with
    | true => simp
    | false => simp [hb] at hpanic
  · intro hne hpb hqb heq
    apply hne
    rw [pattern_eq_join_segments p hp hpb, pattern_eq_join_segments q hq hqb, heq]

/-- Witness of C21: `/a/ /b` and `/a/c` for `GET`, and `/a` with `/a/ `. -/
theorem C21_conflict_iff_same_segments_witness :
    (newRouter.addRoute "GET".toList "/a/ /b".toList (some 1)).panic = none ∧
      ((newRouter.addRoute "GET".toList "/a/ /b".toList (some 1)).state.addRoute
        "GET".toList "/a/c".toList (some 2)).panic = none ∧
      ((newRouter.addRoute "GET".toList "/a".toList (some 1)).state.addRoute
        "GET".toList "/a/ ".toList (some 2)).panic = some (routeConflict "/a/ ".toList) :=
  ⟨(C21_conflict_iff_same_segments "GET".toList "/a/ /b".toList "/a/c".toList (some 1)
      (some 2) (by decide) (by decide) (by decide)).1,
    (C21_conflict_iff_same_segments "GET".toList "/a/ /b".toList "/a/c".toList (some 1)
      (some 2) (by decide) (by decide) (by decide)).2.1.2 (by decide),
    (C21_conflict_iff_same_segments "GET".toList "/a".toList "/a/ ".toList (some 1)
      (some 2) (by decide) (by decide) (by decide)).2.2.2.1 (by decide)⟩

/-! ## The order of two registrations -/

/-- After a registration the `path` of a former node is the former one, and the `path` of
a node made for a prefix of the segments is the last key of the prefix. -/
theorem node.path_descend_addRouteFrom (n : node) (segs : List GoString) (h : HandleFunc)
    (ks : List GoString) :
    ((n.addRouteFrom segs h).1.descend ks).map node.path =
      if (n.descend ks).isSome = true then (n.descend ks).map node.path
      else if ks.isPrefixOf segs = true then ks.getLast? else none := by
  induction segs generalizing n ks with
  | nil =>
    rw [node.addRouteFrom_nil]
    cases ks with
    | nil => by_cases hh : n.handler = none <;> simp [hh]
    | cons k rest =>
      have hsame : ((if n.handler ≠ none then (n, true) else (n.setHandler h, false)).1).descend
          (k :: rest) = n.descend (k :: rest) := by
        by_cases hh : n.handler = none
        · simp [hh, node.descend_cons]
        · simp [hh]
      rw [hsame]
      cases hd : n.descend (k :: rest) <;> simp [List.isPrefixOf]
  | cons seg rest ih =>
    rw [node.addRouteFrom_cons]
    simp only
    cases ks with
    | nil => simp
    | cons k ks' =>
      by_cases hk : k = seg
      · subst hk
        rw [node.descend_cons, node.childrenGet_storeChild_same]
        simp only [Option.some_bind]
        rw [ih, node.descend_cons]
        unfold node.childFor
        cases hget : n.childrenGet k with
        | some c =>
          simp only [Option.getD_some, Option.some_bind]
          cases ks' with
          | nil => simp
          | cons j js => simp [List.isPrefixOf, List.getLast?_cons_cons]
        | none =>
          simp only [Option.getD_none, Option.none_bind, node.descend_newChild]
          cases ks' with
          | nil => simp [List.isPrefixOf, node.newChild, node.path]
          | cons j js => simp [List.isPrefixOf, List.getLast?_cons_cons]
      · rw [node.descend_cons, node.childrenGet_storeChild_other _ _ _ _ hk,
          ← node.descend_cons]
        cases hd : n.descend (k :: ks') <;> simp [List.isPrefixOf, hk]

/-- After a registration of a valid pattern, the `path` of a former node of the router
is the former one, and the `path` of a new node is the last key that leads to it (`/`
for a new root). -/
theorem router.path_nodeAt_addRoute (r : router) (m p : GoString) (h : HandleFunc)
    (hv : checkPath p = none) (m' : GoString) (ks : List GoString) :
    ((r.addRoute m p h).state.nodeAt m' ks).map node.path =
      if (r.nodeAt m' ks).isSome = true then (r.nodeAt m' ks).map node.path
      else if m' = m ∧ ks.isPrefixOf (pathSegment p).tail = true then
        (['/'] :: ks).getLast? else none := by
  have hget := router.mapGet_addRoute r m p h hv m'
  by_cases hm : m' = m
  · subst hm
    simp only [router.nodeAt, hget, if_true, Option.some_bind, true_and]
    rw [node.path_descend_addRouteFrom]
    unfold router.rootFor
    cases hroot : mapGet r.trees m' with
    | some root =>
      simp only [Option.getD_some, Option.some_bind]
      cases ks with
      | nil => simp
      | cons k rest => simp [List.getLast?_cons_cons]
    | none =>
      simp only [Option.getD_none, Option.none_bind, router.newRootNode_eq,
        node.descend_newChild]
      cases ks with
      | nil => simp [node.newChild, node.path]
      | cons k rest => simp [List.getLast?_cons_cons]
  · simp only [router.nodeAt, hget, hm, if_false, false_and]
    cases hd : (mapGet r.trees m').bind (fun root => root.descend ks) <;> simp

theorem map_path_handler_eq (a b : Option node)
    (hpath : a.map node.path = b.map node.path)
    (hhandler : a.bind node.handler = b.bind node.handler) :
    a.map (fun n => (n.path, n.handler)) = b.map (fun n => (n.path, n.handler)) := by
  cases a with
  | none =>
    cases b with
    | none => rfl
    | some y => simp at hpath
  | some x =>
    cases b with
    | none => simp at hpath
    | some y =>
      simp only [Option.map_some', Option.some.injEq, Option.some_bind] at hpath hhandler ⊢
      rw [hpath, hhandler]

theorem mem_keys_iff_mapGet {V : Type} (m : List (GoString × V)) (k : GoString) :
    k ∈ m.map Prod.fst ↔ (mapGet m k).isSome = true := by
  induction m with
  | nil => simp [mapGet]
  | cons e rest ih =>
    obtain ⟨k', v⟩ := e
    by_cases hk : k' = k
    · subst hk
      simp only [List.map_cons, List.mem_cons, mapGet, if_true, eq_self_iff_true, true_or,
        Option.isSome_some]
    · have hk2 : ¬ k = k' := fun h => hk h.symm
      simp only [List.map_cons, List.mem_cons, mapGet, if_neg hk, hk2, false_or]
      exact ih

theorem node.mem_keys_iff (n : node) (k : GoString) :
    k ∈ n.keys ↔ (n.childrenGet k).isSome = true := by
  unfold node.keys node.childrenGet
  cases n.children with
  | none => simp
  | some m => exact mem_keys_iff_mapGet m k

theorem node.descend_concat (n : node) (ks : List GoString) (k : GoString) :
    n.descend (ks ++ [k]) = (n.descend ks).bind (fun x => x.childrenGet k) := by
  induction ks generalizing n with
  | nil =>
    rw [List.nil_append, node.descend_cons, node.descend_nil, Option.some_bind]
    cases n.childrenGet k <;> rfl
  | cons j js ih =>
    rw [List.cons_append, node.descend_cons, node.descend_cons]
    cases n.childrenGet j with
    | none => rfl
    | some c => exact ih c

theorem router.nodeAt_concat (r : router) (m : GoString) (ks : List GoString) (k : GoString) :
    r.nodeAt m (ks ++ [k]) = (r.nodeAt m ks).bind (fun x => x.childrenGet k) := by
  unfold router.nodeAt
  cases mapGet r.trees m with
  | none => rfl
  | some root => exact node.descend_concat root ks k

/-- Structurally equal routers whose maps hold no key twice have the same methods and, at
each node, the same keys of `children`, up to their order. -/
theorem router.sameStructure_keys (a b : router) (hsame : a.sameStructure b)
    (ha : ∀ m ks n, a.nodeAt m ks = some n → n.Plain)
    (hb : ∀ m ks n, b.nodeAt m ks = some n → n.Plain)
    (hta : (a.trees.map Prod.fst).Nodup) (htb : (b.trees.map Prod.fst).Nodup) :
    (a.trees.map Prod.fst).Perm (b.trees.map Prod.fst) ∧
      (∀ m ks x y, a.nodeAt m ks = some x → b.nodeAt m ks = some y → x.keys.Perm y.keys) := by
  have hsome : ∀ m ks, (a.nodeAt m ks).isSome = (b.nodeAt m ks).isSome := by
    intro m ks
    have h := congrArg Option.isSome (hsame m ks)
    simpa using h
  constructor
  · rw [List.perm_ext_iff_of_nodup hta htb]
    intro m
    rw [mem_keys_iff_mapGet, mem_keys_iff_mapGet]
    have h := hsome m []
    simp only [router.nodeAt] at h
    have hla : ((mapGet a.trees m).bind (fun root => root.descend [])).isSome =
        (mapGet a.trees m).isSome := by cases mapGet a.trees m <;> rfl
    have hlb : ((mapGet b.trees m).bind (fun root => root.descend [])).isSome =
        (mapGet b.trees m).isSome := by cases mapGet b.trees m <;> rfl
    rw [hla, hlb] at h
    rw [h]
  · intro m ks x y hx hy
    rw [List.perm_ext_iff_of_nodup (ha m ks x hx).1 (hb m ks y hy).1]
    intro k
    rw [node.mem_keys_iff, node.mem_keys_iff]
    have h := hsome m (ks ++ [k])
    rw [router.nodeAt_concat, router.nodeAt_concat, hx, hy] at h
    simp only [Option.some_bind] at h
    rw [h]

/-- Claim C22, as stated, fails for a `nil` handler: `GET /a` registered with `nil` and
then with a handler returns both times, and in the opposite order the second call
raises the route conflict. -/
theorem C22_nil_handler_breaks_order :
    (newRouter.addRoute "GET".toList "/a".toList none).panic = none ∧
      ((newRouter.addRoute "GET".toList "/a".toList none).state.addRoute "GET".toList
        "/a".toList (some 1)).panic = none ∧
      (newRouter.addRoute "GET".toList "/a".toList (some 1)).panic = none ∧
      ((newRouter.addRoute "GET".toList "/a".toList (some 1)).state.addRoute "GET".toList
        "/a".toList none).panic = some (routeConflict "/a".toList) := by
  decide

/-- Claim C22, amended. For every router and any two registrations that both return when
applied in one order, the first of them with a non-nil handler, applying them in the
opposite order also returns both times and yields a structurally equal router: a node at
the same lists of keys of the same methods, with the same `path` and the same handler;
and when no map of the router holds a key twice, the two results have the same methods
and at each node the same keys of `children`, up to their order. -/
theorem C22_registration_order (r : router) (m1 p1 m2 p2 : GoString) (h1 h2 : HandleFunc)
    (hh1 : h1 ≠ none) (hfirst : (r.addRoute m1 p1 h1).panic = none)
    (hsecond : ((r.addRoute m1 p1 h1).state.addRoute m2 p2 h2).panic = none) :
    (r.addRoute m2 p2 h2).panic = none ∧
      ((r.addRoute m2 p2 h2).state.addRoute m1 p1 h1).panic = none ∧
      ((r.addRoute m2 p2 h2).state.addRoute m1 p1 h1).state.sameStructure
        ((r.addRoute m1 p1 h1).state.addRoute m2 p2 h2).state ∧
      ((∀ m ks n, r.nodeAt m ks = some n → n.Plain) → (r.trees.map Prod.fst).Nodup →
        (((r.addRoute m2 p2 h2).state.addRoute m1 p1 h1).state.trees.map Prod.fst).Perm
          (((r.addRoute m1 p1 h1).state.addRoute m2 p2 h2).state.trees.map Prod.fst) ∧
        (∀ m ks x y,
          ((r.addRoute m2 p2 h2).state.addRoute m1 p1 h1).state.nodeAt m ks = some x →
          ((r.addRoute m1 p1 h1).state.addRoute m2 p2 h2).state.nodeAt m ks = some y →
          x.keys.Perm y.keys)) := by
  obtain ⟨hv1, hfree1⟩ := (router.panic_addRoute_eq_none_iff _ _ _ _).1 hfirst
  obtain ⟨hv2, hafter⟩ := (router.panic_addRoute_eq_none_iff _ _ _ _).1 hsecond
  rw [router.handlerAt_addRoute _ _ _ _ hfirst] at hafter
  have hdiff : ¬ (m2 = m1 ∧ (pathSegment p2).tail = (pathSegment p1).tail) := by
    intro hc
    rw [if_pos hc] at hafter
    exact hh1 hafter
  rw [if_neg hdiff] at hafter
  have hok2 : (r.addRoute m2 p2 h2).panic = none :=
    (router.panic_addRoute_eq_none_iff _ _ _ _).2 ⟨hv2, hafter⟩
  have hok1 : ((r.addRoute m2 p2 h2).state.addRoute m1 p1 h1).panic = none := by
    refine (router.panic_addRoute_eq_none_iff _ _ _ _).2 ⟨hv1, ?_⟩
    rw [router.handlerAt_addRoute _ _ _ _ hok2,
      if_neg (fun hc => hdiff ⟨hc.1.symm, hc.2.symm⟩)]
    exact hfree1
  have hsame : ((r.addRoute m2 p2 h2).state.addRoute m1 p1 h1).state.sameStructure
      ((r.addRoute m1 p1 h1).state.addRoute m2 p2 h2).state := ?_
  · refine ⟨hok2, hok1, hsame, fun hplain hnodup => ?_⟩
    have hp2 := router.plain_addRoute r m2 p2 h2 hplain hnodup
    have hp21 := router.plain_addRoute _ m1 p1 h1 hp2.1 hp2.2
    have hp1 := router.plain_addRoute r m1 p1 h1 hplain hnodup
    have hp12 := router.plain_addRoute _ m2 p2 h2 hp1.1 hp1.2
    exact router.sameStructure_keys _ _ hsame hp21.1 hp12.1 hp21.2 hp12.2
  intro m ks
  apply map_path_handler_eq
  · rw [router.path_nodeAt_addRoute _ _ _ _ hv1, router.path_nodeAt_addRoute _ _ _ _ hv2,
      router.path_nodeAt_addRoute _ _ _ _ hv2, router.path_nodeAt_addRoute _ _ _ _ hv1,
      router.nodeAt_addRoute _ _ _ _ hv1, router.nodeAt_addRoute _ _ _ _ hv2]
    simp only [Bool.or_eq_true, Bool.and_eq_true, decide_eq_true_eq]
    by_cases he : (r.nodeAt m ks).isSome = true
    · simp only [eq_true he, true_or, if_true]
    · by_cases hc1 : m = m1 ∧ ks.isPrefixOf (pathSegment p1).tail = true
      · by_cases hc2 : m = m2 ∧ ks.isPrefixOf (pathSegment p2).tail = true
        · simp only [eq_false he, eq_true hc1, eq_true hc2, false_or, if_true, if_false]
        · simp only [eq_false he, eq_true hc1, eq_false hc2, false_or, if_true, if_false]
      · by_cases hc2 : m = m2 ∧ ks.isPrefixOf (pathSegment p2).tail = true
        · simp only [eq_false he, eq_false hc1, eq_true hc2, false_or, if_true, if_false]
        · simp only [eq_false he, eq_false hc1, eq_false hc2, false_or, if_true, if_false]
  · have hl := router.handlerAt_addRoute (r.addRoute m2 p2 h2).state m1 p1 h1 hok1 m ks
    have hr := router.handlerAt_addRoute (r.addRoute m1 p1 h1).state m2 p2 h2 hsecond m ks
    rw [router.handlerAt_addRoute _ _ _ _ hok2] at hl
    rw [router.handlerAt_addRoute _ _ _ _ hfirst] at hr
    simp only [router.handlerAt] at hl hr
    rw [hl, hr]
    by_cases hc1 : m = m1 ∧ ks = (pathSegment p1).tail
    · by_cases hc2 : m = m2 ∧ ks = (pathSegment p2).tail
      · exact absurd ⟨hc2.1.symm.trans hc1.1, hc2.2.symm.trans hc1.2⟩ hdiff
      · simp only [eq_true hc1, eq_false hc2, if_true, if_false]
    · by_cases hc2 : m = m2 ∧ ks = (pathSegment p2).tail
      · simp only [eq_false hc1, eq_true hc2, if_true, if_false]
      · simp only [eq_false hc1, eq_false hc2, if_true, if_false]

/-- Witness of C22: `GET /user/home` and `POST /login` on a router that holds `GET /user`. -/
theorem C22_registration_order_witness :
    ((newRouter.addRoute "GET".toList "/user".toList (some 1)).state.addRoute
        "POST".toList "/login".toList (some 3)).panic = none ∧
      (((newRouter.addRoute "GET".toList "/user".toList (some 1)).state.addRoute
        "POST".toList "/login".toList (some 3)).state.addRoute
          "GET".toList "/user/home".toList (some 2)).panic = none ∧
      (((newRouter.addRoute "GET".toList "/user".toList (some 1)).state.addRoute
        "POST".toList "/login".toList (some 3)).state.addRoute
          "GET".toList "/user/home".toList (some 2)).state.sameStructure
        (((newRouter.addRoute "GET".toList "/user".toList (some 1)).state.addRoute
          "GET".toList "/user/home".toList (some 2)).state.addRoute
            "POST".toList "/login".toList (some 3)).state :=
  ⟨(C22_registration_order (newRouter.addRoute "GET".toList "/user".toList (some 1)).state
      "GET".toList "/user/home".toList "POST".toList "/login".toList (some 2) (some 3)
      (by decide) (by decide) (by decide)).1,
    (C22_registration_order (newRouter.addRoute "GET".toList "/user".toList (some 1)).state
      "GET".toList "/user/home".toList "POST".toList "/login".toList (some 2) (some 3)
      (by decide) (by decide) (by decide)).2.1,
    (C22_registration_order (newRouter.addRoute "GET".toList "/user".toList (some 1)).state
      "GET".toList "/user/home".toList "POST".toList "/login".toList (some 2) (some 3)
      (by decide) (by decide) (by decide)).2.2.1⟩

end Web

namespace Orm

open Web

/-! ## Two calls of `Build` -/

/-- The loop over the fields of a row appends to the text and to the arguments, and what
it appends does not depend on what is there. -/
theorem writeRow_form (val : GoString → Except Error GoAny) (fields : List Field) (idx : Nat) :
    ∃ t l e, ∀ s a mo q,
      writeRow val ⟨s, some a, mo, q⟩ fields idx = (⟨s ++ t, some (a ++ l), mo, q⟩, e) := by
  induction fields generalizing idx with
  | nil => exact ⟨[], [], none, fun s a mo q => by simp [writeRow]⟩
  | cons field rest ih =>
    cases hval : val field.GoName with
    | error err =>
      refine ⟨(if idx > 0 then [','] else []) ++ ['?'], [], some err, fun s a mo q => ?_⟩
      rw [writeRow, hval]
      by_cases hidx : idx > 0 <;> simp [hidx, builder.WriteByte]
    | ok arg =>
      obtain ⟨t, l, e, hrest⟩ := ih (idx + 1)
      refine ⟨(if idx > 0 then [','] else []) ++ ['?'] ++ t, arg :: l, e, fun s a mo q => ?_⟩
      rw [writeRow, hval]
      by_cases hidx : idx > 0
      · simp only [hidx, if_true, builder.WriteByte, builder.addArg]
        simp only [List.length_singleton, Nat.succ_ne_zero, if_false, Option.getD_some]
        rw [hrest]
        simp
      · simp only [hidx, if_false, builder.WriteByte, builder.addArg]
        simp only [List.length_singleton, Nat.succ_ne_zero, if_false, Option.getD_some]
        rw [hrest]
        simp

/-- The loop over the rows appends to the text and to the arguments, and what it appends
does not depend on what is there. -/
theorem writeRows_form {T : Type} (creator : T → GoString → Except Error GoAny)
    (fields : List Field) (rows : List T) (j : Nat) :
    ∃ t l e, ∀ s a mo q,
      writeRows creator fields ⟨s, some a, mo, q⟩ rows j =
        (⟨s ++ t, some (a ++ l), mo, q⟩, e) := by
  induction rows generalizing j with
  | nil => exact ⟨[], [], none, fun s a mo q => by simp [writeRows]⟩
  | cons v rest ih =>
    obtain ⟨t1, l1, e1, hrow⟩ := writeRow_form (creator v) fields 0
    cases e1 with
    | some err =>
      refine ⟨(if j > 0 then [','] else []) ++ ['('] ++ t1, l1, some err, fun s a mo q => ?_⟩
      rw [writeRows]
      by_cases hj : j > 0
      · simp only [hj, if_true, builder.WriteByte]
        rw [hrow]
        simp
      · simp only [hj, if_false, builder.WriteByte]
        rw [hrow]
        simp
    | none =>
      obtain ⟨t2, l2, e2, hrest⟩ := ih (j + 1)
      refine ⟨(if j > 0 then [','] else []) ++ ['('] ++ t1 ++ [')'] ++ t2, l1 ++ l2, e2,
        fun s a mo q => ?_⟩
      rw [writeRows]
      by_cases hj : j > 0
      · simp only [hj, if_true, builder.WriteByte]
        rw [hrow]
        simp only
        rw [hrest]
        simp
      · simp only [hj, if_false, builder.WriteByte]
        rw [hrow]
        simp only
        rw [hrest]
        simp

/-- A call of `Build` without upsert clause either fails with an error that does not depend
on the builder, or appends to the text a statement that does not depend on the builder
and returns the whole text with the arguments of the statement. -/
theorem build_form {T : Type} (d : Dialect) (rows : List T) (db : DB T)
    (cols : List GoString) (q : Char) :
    (∃ e, ∀ s a mo, ∃ b',
      (Inserter.mk ⟨s, a, mo, q⟩ d rows db cols none).Build =
          (⟨b', d, rows, db, cols, none⟩, Except.error e) ∧ b'.quoter = q) ∨
      (∃ t l, t ≠ [] ∧ ∀ s a mo, ∃ mo',
        (Inserter.mk ⟨s, a, mo, q⟩ d rows db cols none).Build =
          (⟨⟨s ++ t, some l, mo', q⟩, d, rows, db, cols, none⟩,
            Except.ok ⟨s ++ t, some l⟩)) := by
  cases rows with
  | nil =>
    left
    exact ⟨Error.ErrInsertZeroRow, fun s a mo => ⟨⟨s, a, mo, q⟩, rfl, rfl⟩⟩
  | cons v0 rest =>
    cases hm : db.r v0 with
    | error err =>
      left
      refine ⟨err, fun s a mo => ⟨⟨s ++ "INSERT INTO ".toList, a, none, q⟩, ?_, rfl⟩⟩
      unfold Inserter.Build
      simp only [hm, builder.WriteString]
    | ok m =>
      cases hsel : (if cols.length > 0 then lookupFields m cols [] else Except.ok m.Fields) with
      | error err =>
        left
        refine ⟨err, fun s a mo =>
          ⟨⟨s ++ "INSERT INTO ".toList ++ [q] ++ m.TableName ++ [q] ++ ['('], a, some m, q⟩,
            ?_, rfl⟩⟩
        unfold Inserter.Build
        simp only [hm, hsel, builder.WriteByte, builder.WriteString, builder.quote]
      | ok fields =>
        obtain ⟨t2, l2, e2, hrows⟩ := writeRows_form (db.creator m) fields (v0 :: rest) 0
        cases e2 with
        | some err =>
          left
          refine ⟨err, fun s a mo =>
            ⟨⟨s ++ "INSERT INTO ".toList ++ [q] ++ m.TableName ++ [q] ++ ['(']
                ++ commaSep (fields.map (fun f => quoted q f.ColName)) ++ [')']
                ++ " VALUES ".toList ++ t2, some ([] ++ l2), some m, q⟩, ?_, rfl⟩⟩
          unfold Inserter.Build
          simp only [hm, hsel, writeColumns_zero, builder.WriteByte, builder.WriteString,
            builder.quote]
          rw [hrows]
        | none =>
          right
          refine ⟨"INSERT INTO ".toList ++ [q] ++ m.TableName ++ [q] ++ ['(']
              ++ commaSep (fields.map (fun f => quoted q f.ColName)) ++ [')']
              ++ " VALUES ".toList ++ t2 ++ [';'], l2, by simp, fun s a mo => ⟨some m, ?_⟩⟩
          unfold Inserter.Build
          simp only [hm, hsel, writeColumns_zero, builder.WriteByte, builder.WriteString,
            builder.quote]
          rw [hrows]
          simp

/-- Claim C23, as stated, fails on the test case `single row`: the first `Build` returns
the statement, the second returns the statement twice in one text, with the same
arguments. -/
theorem C23_second_build_doubles_sql :
    singleRowInserter.Build.2 = Except.ok
        ⟨"INSERT INTO `test_model`(`id`,`first_name`,`age`,`last_name`) VALUES (?,?,?,?);".toList,
          some [GoAny.int 12, GoAny.str "Tom".toList, GoAny.int 18,
            GoAny.nullString "Jerry".toList true]⟩ ∧
      singleRowInserter.Build.1.Build.2 = Except.ok
        ⟨("INSERT INTO `test_model`(`id`,`first_name`,`age`,`last_name`) VALUES (?,?,?,?);"
            ++ "INSERT INTO `test_model`(`id`,`first_name`,`age`,`last_name`) VALUES (?,?,?,?);").toList,
          some [GoAny.int 12, GoAny.str "Tom".toList, GoAny.int 18,
            GoAny.nullString "Jerry".toList true]⟩ ∧
      singleRowInserter.Build.1.Build.2 ≠ singleRowInserter.Build.2 := by
  decide

/-- Claim C23, amended. For an inserter without upsert clause, two calls of `Build` in a row
return the same error when the first call fails; when the first call succeeds, the second
returns the same `Args`, and its SQL is the SQL of the first call followed once more by
the statement that the first call wrote, so the two results differ. -/
theorem C23_second_build {T : Type} (i : Inserter T) (hupsert : i.onDuplicateKey = none) :
    (∀ e, i.Build.2 = Except.error e → i.Build.1.Build.2 = Except.error e) ∧
      (∀ query, i.Build.2 = Except.ok query →
        ∃ t, t ≠ [] ∧ query.SQL = i.builder.sb ++ t ∧
          i.Build.1.Build.2 = Except.ok ⟨query.SQL ++ t, query.Args⟩ ∧
          i.Build.1.Build.2 ≠ i.Build.2) := by
  obtain ⟨⟨s, a, mo, q⟩, d, rows, db, cols, up⟩ := i
  simp only at hupsert
  subst hupsert
  rcases build_form d rows db cols q with ⟨e0, hform⟩ | ⟨t, l, ht, hform⟩
  · obtain ⟨b1, hfirst, hq⟩ := hform s a mo
    obtain ⟨s1, a1, mo1, q1⟩ := b1
    simp only at hq
    subst hq
    obtain ⟨b2, hnext, _⟩ := hform s1 a1 mo1
    rw [hfirst]
    constructor
    · intro e he
      simp only [Except.error.injEq] at he
      rw [hnext, he]
    · intro query hquery
      cases hquery
  · obtain ⟨mo1, hfirst⟩ := hform s a mo
    obtain ⟨mo2, hnext⟩ := hform (s ++ t) (some l) mo1
    rw [hfirst]
    constructor
    · intro e he
      cases he
    · intro query hquery
      simp only [Except.ok.injEq] at hquery
      subst hquery
      refine ⟨t, ht, rfl, ?_, ?_⟩
      · rw [hnext]
      · rw [hnext]
        intro heq
        simp only [Except.ok.injEq, Query.mk.injEq, and_true] at heq
        exact ht (by simpa using heq)

/-- Witness of C23: the test case `single row`, built twice. -/
theorem C23_second_build_witness :
    (∀ e, singleRowInserter.Build.2 = Except.error e →
        singleRowInserter.Build.1.Build.2 = Except.error e) ∧
      (∀ query, singleRowInserter.Build.2 = Except.ok query →
        ∃ t, t ≠ [] ∧ query.SQL = singleRowInserter.builder.sb ++ t ∧
          singleRowInserter.Build.1.Build.2 = Except.ok ⟨query.SQL ++ t, query.Args⟩ ∧
          singleRowInserter.Build.1.Build.2 ≠ singleRowInserter.Build.2) :=
  C23_second_build singleRowInserter rfl

end Orm

namespace Web

/-! ## The intermediate node of a registered pattern -/

end Web
